import Mathlib

/-!
# Verification of the Telegram-bot query service core (`main.py`)

This file embeds, as executable Lean definitions, the core logic of the
service: the clean-text extractor (`clean_and_extract`), the universal
"label : value" parser (`universal_parser`, here `universalParser` and
`parse_block`), the per-channel failure tracker (`is_bot_blocked`,
`record_bot_failure`), the response collector / failover orchestrator
(`send_telegram_command`), and the result assembler
(`process_bot_response`).  Regex-driven steps of the Python source are
embedded as direct character-list functions; each definition's doc
comment cites the regex it realizes, and the realization follows Python
`re` semantics (leftmost match, lazy/greedy backtracking order) for the
specific patterns involved.  External I/O (the Telegram transport, file
downloads, wall-clock waiting) is abstracted: inbound traffic becomes an
explicit list of events handed to the collector, and time becomes an
explicit integer parameter.

Theorems at the end settle the frozen specification claims C1-C10.
-/

/-- Python `\s` whitespace class over ASCII, as used by `str.strip`, `\s`
in the source's regexes, and `re.split(r"\n\s*\n+", ...)`. -/
def isPySpace (c : Char) : Bool :=
  c = ' ' || c = '\t' || c = '\n' || c = '\r' || c = '\x0b' || c = '\x0c'

/-- Python `str.lower` restricted to the characters this service meets:
ASCII letters plus the accented Spanish capitals appearing in the
source's case-insensitive patterns. -/
def pyLower (c : Char) : Char :=
  if c = 'Á' then 'á'
  else if c = 'É' then 'é'
  else if c = 'Í' then 'í'
  else if c = 'Ó' then 'ó'
  else if c = 'Ú' then 'ú'
  else if c = 'Ñ' then 'ñ'
  else c.toLower

/-- Exact (case-sensitive) prefix test on character lists. -/
def startsWithCh : List Char → List Char → Bool
  | [], _ => true
  | _ :: _, [] => false
  | p :: ps, c :: cs => p = c && startsWithCh ps cs

/-- Exact substring containment, embedding Python's `pat in text`. -/
def containsTok (pat : List Char) : List Char → Bool
  | [] => startsWithCh pat []
  | c :: cs => startsWithCh pat (c :: cs) || containsTok pat cs

/-- Python `str.strip()`: drop leading and trailing whitespace. -/
def pyStrip (cs : List Char) : List Char :=
  ((cs.dropWhile isPySpace).reverse.dropWhile isPySpace).reverse

/-- Runs-collapsing substitution: every maximal run of characters
satisfying `p` is replaced by the single character `rep`.  This embeds
the source's `re.sub(r"\s+", " ", ...)` (with `p := isPySpace`,
`rep := ' '`), `re.sub(r"[ \t]+", " ", ...)` and
`re.sub(r"\n+", "\n", ...)`: for these patterns the regex matches are
exactly the maximal runs of the character class. -/
def collapseRunsAux (p : Char → Bool) (rep : Char) : Nat → List Char → List Char
  | 0, cs => cs
  | _ + 1, [] => []
  | fuel + 1, c :: rest =>
    if p c then rep :: collapseRunsAux p rep fuel (rest.dropWhile p)
    else c :: collapseRunsAux p rep fuel rest

/-- Entry point for `collapseRunsAux`; the fuel `length + 1` suffices
since every step consumes at least one character. -/
def collapseRuns (p : Char → Bool) (rep : Char) (cs : List Char) : List Char :=
  collapseRunsAux p rep (cs.length + 1) cs

/-- Line-ending normalization, embedding
`raw_text.replace("\r\n", "\n").replace("\r", "\n")` (source line 94).
The composition acts character-wise: a `'\r'` directly followed by
`'\n'` is deleted (the pair collapses to the `'\n'`), and every other
`'\r'` becomes `'\n'`. -/
def normalizeCR : List Char → List Char
  | [] => []
  | c :: rest =>
    if c = '\r' then
      if rest.head? = some '\n' then normalizeCR rest
      else '\n' :: normalizeCR rest
    else c :: normalizeCR rest

/-!
## Pattern matchers

A `Matcher` attempts a regex pattern at the head of a character list and,
on success, returns the remainder after the matched span.  Alternatives
are tried in the backtracking priority order of Python `re`: a lazy
`.*?` offers the shortest extension first, greedy `\s*` / `\d+` / `{1,2}`
offer the longest first.  Every pattern built below consumes at least
one character on success, which `substAll` relies on.
-/

def Matcher : Type := List Char → Option (List Char)

/-- Exact single character. -/
def chLit (c : Char) (k : Matcher) : Matcher := fun cs =>
  match cs with
  | c' :: rest => if c' = c then k rest else none
  | [] => none

/-- Case-insensitive literal text (the source compiles its patterns with
`re.IGNORECASE`). -/
def litCI : List Char → Matcher → Matcher
  | [], k => fun cs => k cs
  | p :: ps, k => fun cs =>
    match cs with
    | c :: rest => if pyLower c = pyLower p then litCI ps k rest else none
    | [] => none

/-- Case-insensitive literal given as a string. -/
def litS (s : String) (k : Matcher) : Matcher := litCI s.toList k

/-- Lazy any-character repetition `.*?` under `re.DOTALL` followed by the
continuation: the continuation is tried first, then one more character is
consumed. -/
def dotLazy (k : Matcher) : Matcher := fun cs =>
  match k cs with
  | some r => some r
  | none =>
    match cs with
    | _ :: rest => dotLazy k rest
    | [] => none

/-- Greedy `\s*` followed by the continuation: longest whitespace run
first, backtracking one character at a time. -/
def wsStar (k : Matcher) : Matcher := fun cs =>
  match cs with
  | c :: rest =>
    if isPySpace c then
      match wsStar k rest with
      | some r => some r
      | none => k (c :: rest)
    else k (c :: rest)
  | [] => k []

/-- Greedy `\d+` followed by the continuation. -/
def digits1 (k : Matcher) : Matcher := fun cs =>
  match cs with
  | c :: rest =>
    if c.isDigit then
      match digits1 k rest with
      | some r => some r
      | none => k rest
    else none
  | [] => none

/-- Trailing greedy `.*` under `re.DOTALL` at the end of a pattern:
consumes the entire remaining text. -/
def dotStarEnd : Matcher := fun _ => some []

/-- Trailing greedy `.+` under `re.DOTALL` at the end of a pattern. -/
def dotPlusEnd : Matcher := fun cs =>
  match cs with
  | _ :: _ => some []
  | [] => none

/-- One `\r?\n` unit (greedy `\r?`; no backtracking is ever needed since
a lone `'\r'` cannot satisfy the following `\n`). -/
def nlUnit (k : Matcher) : Matcher := fun cs =>
  match cs with
  | '\r' :: '\n' :: rest => k rest
  | '\n' :: rest => k rest
  | _ => none

/-- Greedy `(\r?\n){1,2}`: two units are preferred over one. -/
def nl12 (k : Matcher) : Matcher := fun cs =>
  nlUnit (fun cs2 =>
    match nlUnit k cs2 with
    | some r => some r
    | none => k cs2) cs

/-- Greedy optional character `c?`: consuming is preferred, with fallback
to not consuming. -/
def optCh (c : Char) (k : Matcher) : Matcher := fun cs =>
  match cs with
  | c' :: rest =>
    if c' = c then
      match k rest with
      | some r => some r
      | none => k (c' :: rest)
    else k cs
  | [] => k []

/-- Alternation: alternatives tried left to right. -/
def altM (m1 m2 : Matcher) : Matcher := fun cs =>
  match m1 cs with
  | some r => some r
  | none => m2 cs

/-- End of pattern. -/
def doneM : Matcher := fun cs => some cs

/-- Replace every non-overlapping match of `m` by the empty string,
scanning left to right — `re.sub(pattern, "", text)`.  `fuel` bounds the
scan; it is called with `length + 1`, which suffices because every
matcher built in this file consumes at least one character. -/
def substAll (m : Matcher) : Nat → List Char → List Char
  | 0, cs => cs
  | _ + 1, [] => []
  | fuel + 1, c :: rest =>
    match m (c :: rest) with
    | some rem => substAll m fuel rem
    | none => c :: substAll m fuel rest

/-- Entry point for `substAll` with sufficient fuel. -/
def substTop (m : Matcher) (cs : List Char) : List Char :=
  substAll m (cs.length + 1) cs

/-- Does `m` match at some position of the text (`re.search`)? -/
def searchB (m : Matcher) : List Char → Bool
  | [] => (m []).isSome
  | c :: rest => (m (c :: rest)).isSome || searchB m rest

/-!
## Clean Text Extractor (`clean_and_extract`, source lines 141-170)
-/

/-- Pattern `\[#?LEDER_BOT\]` (IGNORECASE), source line 146. -/
def lederTagPat : Matcher :=
  chLit '[' (optCh '#' (litS "LEDER_BOT" (chLit ']' doneM)))

/-- Pattern `\[CONSULTA PE\]` (IGNORECASE), source line 147. -/
def consultaTagPat : Matcher :=
  chLit '[' (litS "CONSULTA PE" (chLit ']' doneM))

/-- Header pattern `^\[.*?\]\s*→\s*.*?\[.*?\](\r?\n){1,2}`
(IGNORECASE | DOTALL), source line 148.  Without `re.MULTILINE` the `^`
anchors only at the start of the string, so `re.sub` removes at most one
match, at position 0. -/
def headerPat : Matcher :=
  chLit '[' (dotLazy (chLit ']' (wsStar (chLit '→'
    (wsStar (dotLazy (chLit '[' (dotLazy (chLit ']' (nl12 doneM))))))))))

/-- Footer pattern (IGNORECASE | DOTALL), source line 150: the ten
alternatives of
`((\r?\n){1,2}\[|Página\s*\d+\/\d+.*|(\r?\n){1,2}Por favor, usa el formato correcto.*|↞ Anterior|Siguiente ↠.*|Credits\s*:.+|Wanted for\s*:.+|\s*@lederdata.*|(\r?\n){1,2}\s*Marca\s*@lederdata.*|(\r?\n){1,2}\s*Créditos\s*:\s*\d+)`
tried in order. -/
def footerPat : Matcher :=
  altM (nl12 (chLit '[' doneM)) <|
  altM (litS "Página" (wsStar (digits1 (chLit '/' (digits1 dotStarEnd))))) <|
  altM (nl12 (litS "Por favor, usa el formato correcto" dotStarEnd)) <|
  altM (litS "↞ Anterior" doneM) <|
  altM (litS "Siguiente ↠" dotStarEnd) <|
  altM (litS "Credits" (wsStar (chLit ':' dotPlusEnd))) <|
  altM (litS "Wanted for" (wsStar (chLit ':' dotPlusEnd))) <|
  altM (wsStar (litS "@lederdata" dotStarEnd)) <|
  altM (nl12 (wsStar (litS "Marca" (wsStar (litS "@lederdata" dotStarEnd))))) <|
  (nl12 (wsStar (litS "Créditos" (wsStar (chLit ':' (wsStar (digits1 doneM)))))))

/-- Pattern `\-{3,}` (a run of three or more dashes, removed whole since
`{3,}` is greedy), source line 152. -/
def dashesPat : Matcher := fun cs =>
  match cs with
  | '-' :: '-' :: '-' :: rest => some (rest.dropWhile (· = '-'))
  | _ => none

/-- Pattern `\n\s*\n` with greedy `\s*`, source line 169: a newline, the
longest whitespace stretch that still leaves a newline, and that newline.
Equivalently, the match runs to the last `'\n'` of the maximal whitespace
run that follows the opening `'\n'`. -/
def blankPat : Matcher := fun cs =>
  match cs with
  | '\n' :: rest => wsStar (chLit '\n' doneM) rest
  | _ => none

/-- Replacement form of `re.sub(r"\n\s*\n", "\n", text)`: each match is
replaced by a single `'\n'`. -/
def collapseBlank : Nat → List Char → List Char
  | 0, cs => cs
  | _ + 1, [] => []
  | fuel + 1, c :: rest =>
    match blankPat (c :: rest) with
    | some rem => '\n' :: collapseBlank fuel rem
    | none => c :: collapseBlank fuel rest

/-- The five capture alternatives of the photo-type pattern, in source
order. -/
def photoWords : List String := ["rostro", "huella", "firma", "adverso", "reverso"]

/-- Attempt `Foto\s*:\s*(rostro|huella|firma|adverso|reverso).*`
(IGNORECASE), source line 161, at the head of the text, returning the
lowercased captured word.  The trailing `.*` always succeeds. -/
def photoAt (cs : List Char) : Option String :=
  match litS "Foto" (wsStar (chLit ':' (wsStar doneM))) cs with
  | none => none
  | some rest => photoWords.find? (fun w => (litS w doneM rest).isSome)

/-- `re.search` scan for the photo-type pattern. -/
def searchPhoto : List Char → Option String
  | [] => none
  | c :: rest =>
    match photoAt (c :: rest) with
    | some w => some w
    | none => searchPhoto rest

/-- Not-found pattern
`\[⚠️\]\s*(no se encontro información|no se han encontrado resultados|no se encontró una|no hay resultados|no tenemos datos|no se encontraron registros)`
(IGNORECASE | DOTALL), source line 165. -/
def notFoundPat : Matcher :=
  litS "[⚠️]" (wsStar (
    altM (litS "no se encontro información" doneM) <|
    altM (litS "no se han encontrado resultados" doneM) <|
    altM (litS "no se encontró una" doneM) <|
    altM (litS "no hay resultados" doneM) <|
    altM (litS "no tenemos datos" doneM) <|
    (litS "no se encontraron registros" doneM)))

/-- Extracted side-channel flags (`fields` in the source): `photo_type`
and `not_found`; an absent Python key is `none` / `false` here. -/
structure Fields where
  photo_type : Option String := none
  not_found : Bool := false
deriving DecidableEq, Repr

/-- Output of the Clean Text Extractor. -/
structure Cleaned where
  text : String
  fields : Fields
deriving DecidableEq, Repr

/-- Embedding of `clean_and_extract` (source lines 141-170): boilerplate
removal, whitespace normalization (`re.sub(r"\s+", " ", text)` collapses
every whitespace run, line breaks included, to one space), flag
extraction, and the final blank-line collapse (a no-op at that point
since no newline survives the previous step). -/
def clean_and_extract (raw : String) : Cleaned :=
  if raw.isEmpty then { text := "", fields := {} }
  else
    let t1 := substTop lederTagPat raw.toList
    let t2 := substTop consultaTagPat t1
    let t3 := match headerPat t2 with
      | some rem => rem
      | none => t2
    let t4 := substTop footerPat t3
    let t5 := substTop dashesPat t4
    let t6 := pyStrip (collapseRuns isPySpace ' ' t5)
    let photo := searchPhoto t6
    let nf := searchB notFoundPat t6
    let t7 := pyStrip (collapseBlank (t6.length + 1) t6)
    { text := String.mk t7, fields := { photo_type := photo, not_found := nf } }

/-!
## Universal Parser (`universal_parser`, source lines 81-138)

The source's `parse_block` iterates
`re.finditer(r'^([^:\n]+?)\s*:\s*(.+?)(?=\n[^:\n]+?\s*:|\Z)', block,
flags=re.MULTILINE | re.DOTALL)`.  The embedding below realizes the
match semantics of that pattern directly:

* a match can start only at a line start (`^` with `MULTILINE`);
* the lazy key `[^:\n]+?` together with the following greedy `\s*:`
  commits to the shortest key prefix from which skipping whitespace
  (which may cross a newline) lands on a colon — all viable key lengths
  reach the same colon, namely the first colon preceded only by
  key characters and then whitespace;
* after the colon, greedy `\s*` skips the maximal whitespace run and the
  lazy `(.+?)` value then grows until the lookahead
  `(?=\n[^:\n]+?\s*:|\Z)` holds: either end of text, or a newline
  followed by a key-looking line.  When nothing but whitespace follows
  the colon, `\s*` backtracks by one character so that the value becomes
  that single whitespace character;
* `finditer` resumes scanning at the end of each match.
-/

/-- A character allowed in `[^:\n]+?`. -/
def isKeyChar (c : Char) : Bool := c ≠ ':' && c ≠ '\n'

/-- Skip `\s*`. -/
def skipWS (cs : List Char) : List Char := cs.dropWhile isPySpace

/-- Smallest viable key length at a line start: the least `k ≥ 1` such
that the first `k` characters are key characters and skipping whitespace
from position `k` lands on `':'`.  Returns `none` when the line cannot
open a `key : value` match. -/
def findKey (cs : List Char) : Option Nat :=
  (List.range' 1 (cs.takeWhile isKeyChar).length).find? (fun k =>
    match skipWS (cs.drop k) with
    | ':' :: _ => true
    | _ => false)

/-- The lookahead `\n[^:\n]+?\s*:` after its newline: does the following
text open a key? -/
def nextKeyLA (cs : List Char) : Bool := (findKey cs).isSome

/-- Number of value characters taken beyond the first one: the lazy
value stops at the first position that is either the end of the text or
a `'\n'` whose suffix satisfies the lookahead. -/
def valueLenAux : List Char → Nat
  | [] => 0
  | c :: r => if c = '\n' && nextKeyLA r then 0 else 1 + valueLenAux r

/-- Attempt the `finditer` pattern at a line start.  On success returns
the raw `(group(1), group(2))` capture and the unconsumed remainder. -/
def matchAt (cs : List Char) : Option ((List Char × List Char) × List Char) :=
  match findKey cs with
  | none => none
  | some k =>
    let key := cs.take k
    let afterColon := (skipWS (cs.drop k)).tail
    let rest3 := skipWS afterColon
    match rest3 with
    | [] =>
      -- only whitespace (or nothing) after the colon: `\s*` backtracks
      -- one step so the lazy `(.+?)` can take that one character.
      match afterColon.reverse with
      | [] => none
      | c :: _ => some ((key, [c]), [])
    | c :: r =>
      let len := 1 + valueLenAux r
      some ((key, c :: r.take (len - 1)), r.drop (len - 1))

/-- Drop characters through the next `'\n'` (to the next line start). -/
def dropLine (cs : List Char) : List Char :=
  (cs.dropWhile (fun c => c ≠ '\n')).tail

/-- Scan for all matches of the `finditer` pattern.  `atLS` records
whether the current position is a line start; `fuel` bounds the scan and
`length + 1` suffices since every step consumes at least one
character. -/
def findPairsAux : Nat → List Char → Bool → List (List Char × List Char)
  | 0, _, _ => []
  | _ + 1, [], _ => []
  | fuel + 1, cs, atLS =>
    if atLS then
      match matchAt cs with
      | some (kv, rest) =>
        kv :: findPairsAux fuel rest (kv.2.getLastD ' ' = '\n')
      | none => findPairsAux fuel (dropLine cs) true
    else findPairsAux fuel (dropLine cs) true

/-- All raw `(key, value)` captures of a block, in order. -/
def findPairs (cs : List Char) : List (List Char × List Char) :=
  findPairsAux (cs.length + 1) cs true

/-- Values of the parser: a plain string, or the ordered list a repeated
label accumulates (source lines 117-124). -/
inductive JVal where
  | str (s : String)
  | seq (vs : List String)
deriving DecidableEq, Repr

/-- One parsed record: an insertion-ordered mapping from label to value,
as a Python dict is. -/
abbrev PRecord := List (String × JVal)

/-- Insert one `(key, value)` pair into a record with the source's
repeat handling: a fresh key is appended; a repeated key's `str` value
becomes a two-element `seq`, and a `seq` value is appended to. -/
def insertPair : PRecord → String → String → PRecord
  | [], k, v => [(k, JVal.str v)]
  | (k', jv) :: rest, k, v =>
    if k' = k then
      (k', match jv with
        | JVal.str s => JVal.seq [s, v]
        | JVal.seq vs => JVal.seq (vs ++ [v])) :: rest
    else (k', jv) :: insertPair rest k v

/-- Fold cleaned pairs into a record. -/
def buildRecord (ps : List (String × String)) : PRecord :=
  ps.foldl (fun obj p => insertPair obj p.1 p.2) []

/-- Per-pair cleanup (source lines 107-115): strip the key and value;
drop pairs with an empty key; collapse the value's horizontal whitespace
and newline runs. -/
def cleanPair (kv : List Char × List Char) : Option (String × String) :=
  let key := pyStrip kv.1
  let v0 := pyStrip kv.2
  if key = [] then none
  else
    let v1 := pyStrip (collapseRuns (fun c => c = ' ' || c = '\t') ' ' v0)
    let v2 := pyStrip (collapseRuns (fun c => c = '\n') '\n' v1)
    some (String.mk key, String.mk v2)

/-- Embedding of the source's inner `parse_block` (lines 100-126). -/
def parse_block (block : List Char) : PRecord :=
  buildRecord ((findPairs block).filterMap cleanPair)

/-- Block splitting (source line 98):
`[b.strip() for b in re.split(r"\n\s*\n+", text) if b.strip()]`.
A match of `\n\s*\n+` is the span from the first to the last newline of
a maximal whitespace run containing at least two newlines; trailing
horizontal whitespace of the run stays with the following segment and
disappears under `strip`.  Hence, after the strip-and-filter, the result
equals: split at every maximal whitespace run containing two or more
newlines, strip each piece, drop empty pieces — which is what this
function computes. -/
def blocksAux : Nat → List Char → List Char → List (List Char)
  | 0, _, acc => [acc.reverse]
  | _ + 1, [], acc => [acc.reverse]
  | fuel + 1, c :: rest, acc =>
    if isPySpace c then
      let run := (c :: rest).takeWhile isPySpace
      let rest' := (c :: rest).dropWhile isPySpace
      if 2 ≤ run.count '\n' then acc.reverse :: blocksAux fuel rest' []
      else blocksAux fuel rest' (run.reverse ++ acc)
    else blocksAux fuel rest (c :: acc)

/-- Stripped, non-empty blocks of the text; the fuel `length + 1`
suffices since every step consumes at least one character. -/
def splitBlocks (cs : List Char) : List (List Char) :=
  ((blocksAux (cs.length + 1) cs []).map pyStrip).filter (· ≠ [])

/-- Result of the Universal Parser: one record (a Python dict, possibly
empty) or an ordered sequence of records (a Python list). -/
inductive ParseResult where
  | single (r : PRecord)
  | multiple (rs : List PRecord)
deriving DecidableEq, Repr

/-- Embedding of `universal_parser` (source lines 81-138; renamed since
a Lean name here may not end in the word `parser`): normalize line
endings, strip, split into blank-line-separated blocks, parse each
block, drop empty records, and return a single record or a list
according to how many non-empty records remain. -/
def universalParser (raw : String) : ParseResult :=
  if pyStrip raw.toList = [] then ParseResult.single []
  else
    let text := pyStrip (normalizeCR raw.toList)
    let parsed := ((splitBlocks text).map parse_block).filter (· ≠ [])
    match parsed with
    | [] => ParseResult.single []
    | [b] => ParseResult.single b
    | bs => ParseResult.multiple bs

/-!
## Failure tracker (`bot_fail_tracker`, source lines 36-52)

Wall-clock time is modelled as an integer number of seconds; the 3-hour
window of `timedelta(hours=3)` is `3 * 3600` of these units.
-/

/-- The process-wide `bot_fail_tracker` dict: channel id to the last
failure time. -/
abbrev Tracker := List (String × Int)

/-- Dict read. -/
def trackerGet : Tracker → String → Option Int
  | [], _ => none
  | (k', t) :: rest, k => if k' = k then some t else trackerGet rest k

/-- Dict write (overwrite in place, append when fresh — Python dict
insertion semantics). -/
def trackerSet : Tracker → String → Int → Tracker
  | [], k, t => [(k, t)]
  | (k', t') :: rest, k, t =>
    if k' = k then (k, t) :: rest else (k', t') :: trackerSet rest k t

/-- `dict.pop(key, None)`. -/
def trackerPop : Tracker → String → Tracker
  | [], _ => []
  | (k', t') :: rest, k =>
    if k' = k then rest else (k', t') :: trackerPop rest k

def LEDERDATA_PRIMARY_BOT_ID : String := "@LEDERDATA_OFC_BOT"
def LEDERDATA_BACKUP_BOT_ID : String := "@lederdata_publico_bot"
def TIMEOUT_PRIMARY : Nat := 35
def TIMEOUT_BACKUP : Nat := 18
def TIMEOUT_BACKUP_NORMAL : Nat := 50

/-- Embedding of `is_bot_blocked` (source lines 38-48): blocked iff an
entry exists whose timestamp is strictly later than `now` minus three
hours; an existing expired entry is popped as a side effect (lazy
expiry).  Returns the answer together with the updated tracker. -/
def is_bot_blocked (tr : Tracker) (botId : String) (now : Int) : Bool × Tracker :=
  match trackerGet tr botId with
  | none => (false, tr)
  | some t =>
    if t > now - 3 * 3600 then (true, tr)
    else (false, trackerPop tr botId)

/-- Embedding of `record_bot_failure` (source lines 50-52). -/
def record_bot_failure (tr : Tracker) (botId : String) (now : Int) : Tracker :=
  trackerSet tr botId now

/-!
## Response collector (`send_telegram_command`, source lines 173-329)

The transport is abstracted: the inbound messages that would reach a
collection window's handler become an explicit list of `Event`s, in
arrival order.  Real-time aspects (the timeout budget, the 4.5-second
quiet period, the 0.5-second poll) only decide *which* events fall
inside the window, so they are absorbed into that list.  `mediaUrl`
stands for the public URL the external download collaborator would
produce for the event's attachment (`none`: no attachment, or a failed
download, which the source logs and skips).
-/

/-- One inbound message event. -/
structure Event where
  fromSelected : Bool
  raw : String
  mediaUrl : Option String
deriving DecidableEq, Repr

/-- One buffered message object (`msg_obj` in the handlers). -/
structure Msg where
  message : String
  fields : Fields
  urls : List String
  mediaUrl : Option String
deriving DecidableEq, Repr

/-- Per-query mutable collection state: the buffered messages, the
`stop_collecting` flag and the `anti_spam_detected` flag. -/
structure Session where
  buffered : List Msg
  stopped : Bool
  antiSpam : Bool
deriving DecidableEq, Repr

def initSession : Session := { buffered := [], stopped := false, antiSpam := false }

/-- Anti-spam marker check (source line 218): both literal fragments
must occur, case-sensitively, in the raw text. -/
def isAntiSpamText (raw : String) : Bool :=
  containsTok "[⛔] ANTI-SPAM".toList raw.toList &&
  containsTok "INTENTA DESPUES".toList raw.toList

/-- Handler stop pattern `\[⚠️\]\s*no se encontro información`
(IGNORECASE), source lines 224 and 284. -/
def notFoundStopPat : Matcher :=
  litS "[⚠️]" (wsStar (litS "no se encontro información" doneM))

def hasNotFoundStop (raw : String) : Bool := searchB notFoundStopPat raw.toList

/-- Build the buffered message object for an accepted event (handler
body, source lines 228-236). -/
def mkMsg (e : Event) : Msg :=
  let c := clean_and_extract e.raw
  { message := c.text, fields := c.fields, urls := [], mediaUrl := e.mediaUrl }

/-- One step of the inbound handler.  `detectAS` is true for the first
window's `temp_handler` (which recognizes the anti-spam marker, source
lines 217-221) and false for `backup_handler` (which does not, source
lines 272-296).  Both handlers: ignore events once stopped, ignore
events from other senders, stop without buffering on the not-found
marker, and otherwise clean and append the message. -/
def handleEvent (detectAS : Bool) (s : Session) (e : Event) : Session :=
  if s.stopped then s
  else if !e.fromSelected then s
  else if detectAS && isAntiSpamText e.raw then
    { s with antiSpam := true, stopped := true }
  else if hasNotFoundStop e.raw then { s with stopped := true }
  else { s with buffered := s.buffered ++ [mkMsg e] }

/-- A whole collection window over its inbound events. -/
def collectSession (detectAS : Bool) (events : List Event) : Session :=
  events.foldl (handleEvent detectAS) initSession

/-!
## Result assembler (`process_bot_response`, source lines 331-399)
-/

/-- Values appearing in the final `data` dict. -/
inductive DataVal where
  | s (v : String)
  | seq (vs : List String)
  | b (v : Bool)
  | recs (rs : List PRecord)
  | urls (us : List String)
deriving DecidableEq, Repr

/-- The final `data` dict: insertion-ordered. -/
abbrev Data := List (String × DataVal)

/-- Dict write for `Data`. -/
def dictSet : Data → String → DataVal → Data
  | [], k, v => [(k, v)]
  | (k', v') :: rest, k, v =>
    if k' = k then (k, v) :: rest else (k', v') :: dictSet rest k v

/-- Python `dict.update`. -/
def dictUpdate (d : Data) (entries : Data) : Data :=
  entries.foldl (fun acc p => dictSet acc p.1 p.2) d

/-- Dict membership. -/
def dictHasKey (d : Data) (k : String) : Bool := (d.map Prod.fst).contains k

/-- Record membership. -/
def recHasKey (r : PRecord) (k : String) : Bool := (r.map Prod.fst).contains k

/-- The HTTP-facing outcome: `{"status": "success", ...}` or
`{"status": "error", "message": ...}`. -/
inductive ApiResponse where
  | success (data : Data) (raw_message : String)
  | error (message : String)
deriving DecidableEq, Repr

/-- The incorrect-format test of source line 332:
`"formato correcto" in (m["message"] or "").lower()`. -/
def hasFormatoIncorrecto (m : Msg) : Bool :=
  containsTok "formato correcto".toList (m.message.toList.map pyLower)

/-- Merged side-channel flags (source lines 367-371): per key, the first
truthy value wins.  The only keys `clean_and_extract` produces are
`photo_type` (inserted first when present) and `not_found`. -/
def mergeFields (msgs : List Msg) : Fields :=
  msgs.foldl (fun acc m =>
    { photo_type := match acc.photo_type with
        | some p => some p
        | none => m.fields.photo_type,
      not_found := acc.not_found || m.fields.not_found }) {}

/-- The merged flags as `data` entries, in the dict-iteration order of
`clean_and_extract`'s fields (`photo_type` before `not_found`). -/
def fieldsToData (f : Fields) : Data :=
  (match f.photo_type with
    | some p => [("photo_type", DataVal.s p)]
    | none => []) ++
  (if f.not_found then [("not_found", DataVal.b true)] else [])

/-- Combined text (source lines 352-356): non-empty message texts each
followed by a newline, then stripped. -/
def combine_messages (msgs : List Msg) : String :=
  String.mk (pyStrip (msgs.foldl
    (fun acc m => if m.message.isEmpty then acc else acc ++ m.message.toList ++ ['\n']) []))

/-- A record's entries as `data` entries. -/
def recordToData (r : PRecord) : Data :=
  r.map (fun p => (p.1, match p.2 with
    | JVal.str s => DataVal.s s
    | JVal.seq vs => DataVal.seq vs))

/-- The attachment-download loop of `process_bot_response` (source
lines 339-349), abstracted: a message's pre-resolved `mediaUrl`, when
present, is appended to its `urls` exactly as a successful
`download_media` call would do. -/
def applyDownloads (msgs : List Msg) : List Msg :=
  msgs.map (fun m =>
    match m.mediaUrl with
    | some u => { m with urls := m.urls ++ [u] }
    | none => m)

/-- Embedding of `process_bot_response` (source lines 331-399). -/
def process_bot_response (msgs : List Msg) : ApiResponse :=
  if msgs.any hasFormatoIncorrecto then ApiResponse.error "Formato incorrecto."
  else if msgs.any (fun m => m.fields.not_found) then
    ApiResponse.error "No se encontraron resultados."
  else
    let msgs2 := applyDownloads msgs
    let combined := combine_messages msgs2
    let parsed := universalParser combined
    let urls := msgs2.foldl (fun acc m => acc ++ m.urls) []
    let finalFields := mergeFields msgs2
    let data0 : Data :=
      match parsed with
      | ParseResult.multiple rs =>
        let d1 := dictSet [] "denuncias" (DataVal.recs rs)
        if fieldsToData finalFields ≠ [] then dictUpdate d1 (fieldsToData finalFields) else d1
      | ParseResult.single r =>
        if r ≠ [] then dictUpdate (dictUpdate [] (fieldsToData finalFields)) (recordToData r)
        else dictUpdate [] (fieldsToData finalFields)
    let data1 := if urls ≠ [] then dictSet data0 "urls" (DataVal.urls urls) else data0
    ApiResponse.success data1 combined

/-!
## Failover orchestrator (`send_telegram_command`, source lines 186-323)

The credential/authorization preamble (lines 176-184) and the transport
connection are outside the model; the embedding starts at channel
selection.  `firstEvents` are the inbound events of the first collection
window, `backupEvents` those of the escalation window (consulted only
when escalation happens).
-/

/-- One send/collect attempt, for the execution trace: the channel the
command was sent to and the timeout budget (seconds) of its window. -/
structure Attempt where
  channel : String
  timeoutSec : Nat
deriving DecidableEq, Repr

/-- Observable outcome of one orchestrated query. -/
structure OrchOutcome where
  primaryBlocked : Bool
  escalated : Bool
  attempts : List Attempt
  finalSession : Session
  recordedFailure : Bool
  response : ApiResponse
deriving DecidableEq, Repr

/-- Embedding of the orchestrator (source lines 186-323):

* channel selection by the circuit breaker (lines 186-197);
* first collection window under `temp_handler` (anti-spam aware);
* one-shot escalation to the backup channel with the short
  `TIMEOUT_BACKUP` budget and a fresh session when anti-spam was
  detected on the primary (lines 260-313), collected under
  `backup_handler` (anti-spam unaware);
* terminal zero-message outcomes (lines 315-321): primary-only failure
  records a circuit-breaker entry, every other empty path does not;
* otherwise result assembly (line 323).

Returns the outcome together with the updated tracker state. -/
def send_telegram_command (tr : Tracker) (now : Int)
    (firstEvents backupEvents : List Event) : OrchOutcome × Tracker :=
  let pb := (is_bot_blocked tr LEDERDATA_PRIMARY_BOT_ID now).1
  let tr1 := (is_bot_blocked tr LEDERDATA_PRIMARY_BOT_ID now).2
  let bot0 := if pb then LEDERDATA_BACKUP_BOT_ID else LEDERDATA_PRIMARY_BOT_ID
  let tmo0 := if pb then TIMEOUT_BACKUP_NORMAL else TIMEOUT_PRIMARY
  let s1 := collectSession true firstEvents
  let esc := s1.antiSpam && !pb
  let sF := if esc then collectSession false backupEvents else s1
  let useBackup := pb || esc
  let atts := if esc then [⟨bot0, tmo0⟩, ⟨LEDERDATA_BACKUP_BOT_ID, TIMEOUT_BACKUP⟩]
              else [⟨bot0, tmo0⟩]
  if sF.buffered.isEmpty && !useBackup then
    ({ primaryBlocked := pb, escalated := esc, attempts := atts, finalSession := sF,
       recordedFailure := true,
       response := ApiResponse.error "No se obtuvo respuesta del bot principal." },
     record_bot_failure tr1 LEDERDATA_PRIMARY_BOT_ID now)
  else if sF.buffered.isEmpty then
    ({ primaryBlocked := pb, escalated := esc, attempts := atts, finalSession := sF,
       recordedFailure := false,
       response := ApiResponse.error "No se obtuvo respuesta del bot." }, tr1)
  else
    ({ primaryBlocked := pb, escalated := esc, attempts := atts, finalSession := sF,
       recordedFailure := false,
       response := process_bot_response sF.buffered }, tr1)

/-!
## Specification observers

Definitions used only to state and settle the claims: dict/record
observers, the dict-likeness invariant of the tracker, and the input
family of amended claim C1.
-/

/-- A tracker state is dict-like when its keys are pairwise distinct —
an invariant every Python dict satisfies by construction. -/
def trackerWF (tr : Tracker) : Prop := (tr.map Prod.fst).Nodup

/-- Observer: dict read on a parsed record. -/
def recLookup : PRecord → String → Option JVal
  | [], _ => none
  | (k', v) :: rest, k => if k' = k then some v else recLookup rest k

/-- Observer: the values carried by a label in a pair list, in order of
occurrence. -/
def valuesOf (ps : List (String × String)) (k : String) : List String :=
  ps.filterMap (fun p => if p.1 = k then some p.2 else none)

/-- Observer: the accumulation the source's repeat handling performs on
one label's successive values. -/
def jAppend : Option JVal → List String → Option JVal
  | o, [] => o
  | none, v :: vs => jAppend (some (JVal.str v)) vs
  | some (JVal.str s), v :: vs => jAppend (some (JVal.seq [s, v])) vs
  | some (JVal.seq ss), v :: vs => jAppend (some (JVal.seq (ss ++ [v]))) vs

/-- Specification observer for the amended claim C1: a value string in
the normalized shape the parser's value cleanup leaves untouched —
non-empty, free of colons / newlines / carriage returns, with no
surrounding whitespace and no horizontal-whitespace runs. -/
def goodVal (v : String) : Bool :=
  !v.toList.isEmpty &&
  v.toList.all (fun c => c ≠ ':' && c ≠ '\n' && c ≠ '\r') &&
  decide (pyStrip v.toList = v.toList) &&
  decide (collapseRuns (fun c => c = ' ' || c = '\t') ' ' v.toList = v.toList)

/-- Specification observer: one single-line `DNI : value` block. -/
def dniBlock (v : String) : List Char := "DNI : ".toList ++ v.toList

/-- Specification observer: `DNI : value` blocks joined by blank
lines. -/
def joinBlocks : List String → List Char
  | [] => []
  | [v] => dniBlock v
  | v :: rest => dniBlock v ++ '\n' :: '\n' :: joinBlocks rest

/-- Specification observer: the text ends (when non-empty) in a
non-whitespace character. -/
def lastNonWS (w : List Char) : Prop :=
  w.reverse.dropWhile isPySpace = w.reverse

/-!
## Claim theorems
-/

theorem dropWhile_length_le {α : Type} (p : α → Bool) :
    ∀ l : List α, (l.dropWhile p).length ≤ l.length := by
  intro l
  induction l with
  | nil => simp [List.dropWhile]
  | cons c rest ih =>
    simp only [List.dropWhile]
    by_cases h : p c
    · simp only [h]
      exact Nat.le_succ_of_le ih
    · simp [h]


theorem trackerGet_set (tr : Tracker) (k : String) (t : Int) :
    trackerGet (trackerSet tr k t) k = some t := by
  induction tr with
  | nil => simp [trackerSet, trackerGet]
  | cons p rest ih =>
    by_cases h : p.1 = k
    · simp [trackerSet, trackerGet, h]
    · simp [trackerSet, trackerGet, h, ih]

theorem trackerGet_none_of_not_mem (tr : Tracker) (k : String)
    (h : k ∉ tr.map Prod.fst) : trackerGet tr k = none := by
  induction tr with
  | nil => simp [trackerGet]
  | cons p rest ih =>
    simp only [List.map_cons, List.mem_cons] at h
    push_neg at h
    simp only [trackerGet]
    rw [if_neg (fun e => h.1 e.symm)]
    exact ih h.2

theorem trackerGet_pop (tr : Tracker) (k : String) (hwf : trackerWF tr) :
    trackerGet (trackerPop tr k) k = none := by
  induction tr with
  | nil => simp [trackerPop, trackerGet]
  | cons p rest ih =>
    simp only [trackerWF, List.map_cons, List.nodup_cons] at hwf
    by_cases h : p.1 = k
    · simp only [trackerPop, h, if_pos rfl]
      exact trackerGet_none_of_not_mem rest k (h ▸ hwf.1)
    · simp [trackerPop, trackerGet, h, ih hwf.2]

theorem trackerSet_mem_fst (tr : Tracker) (k : String) (t : Int) (x : String) :
    x ∈ (trackerSet tr k t).map Prod.fst ↔ x ∈ tr.map Prod.fst ∨ x = k := by
  induction tr with
  | nil => simp [trackerSet]
  | cons p rest ih =>
    obtain ⟨pk, pt⟩ := p
    by_cases h : pk = k
    · subst h
      simp only [trackerSet, if_pos rfl, List.map_cons, List.mem_cons, if_true,
        eq_self_iff_true]
      tauto
    · simp only [trackerSet, if_neg h, List.map_cons, List.mem_cons, ih]
      tauto

theorem trackerWF_set (tr : Tracker) (k : String) (t : Int) (hwf : trackerWF tr) :
    trackerWF (trackerSet tr k t) := by
  induction tr with
  | nil => simp [trackerWF, trackerSet]
  | cons p rest ih =>
    simp only [trackerWF, List.map_cons, List.nodup_cons] at hwf
    by_cases h : p.1 = k
    · simp only [trackerSet, if_pos h, trackerWF, List.map_cons, List.nodup_cons]
      exact ⟨h ▸ hwf.1, hwf.2⟩
    · simp only [trackerSet, if_neg h, trackerWF, List.map_cons, List.nodup_cons]
      refine ⟨fun mem => ?_, ih hwf.2⟩
      rcases (trackerSet_mem_fst rest k t p.1).mp mem with hin | heq
      · exact hwf.1 hin
      · exact h heq

/-- Claim C3: right after `record_bot_failure` the channel is blocked;
once time is strictly past three hours from the recorded failure,
`is_bot_blocked` answers false and, as a side effect of that very
query, removes the channel's entry from the tracker state. -/
theorem claim_C3_theorem (tr : Tracker) (ch : String) (t0 t1 : Int)
    (hwf : trackerWF tr) :
    (is_bot_blocked (record_bot_failure tr ch t0) ch t0).1 = true ∧
    (t1 > t0 + 3 * 3600 →
      (is_bot_blocked (record_bot_failure tr ch t0) ch t1).1 = false ∧
      trackerGet (is_bot_blocked (record_bot_failure tr ch t0) ch t1).2 ch = none) := by
  have hg : trackerGet (record_bot_failure tr ch t0) ch = some t0 :=
    trackerGet_set tr ch t0
  constructor
  · simp only [is_bot_blocked, hg]
    rw [if_pos (by omega)]
  · intro ht
    have hnot : ¬ (t0 > t1 - 3 * 3600) := by omega
    simp only [is_bot_blocked, hg, if_neg hnot]
    exact ⟨trivial, trackerGet_pop _ ch (trackerWF_set tr ch t0 hwf)⟩

theorem claim_C3_witness :
    trackerWF ([] : Tracker) ∧
    (is_bot_blocked (record_bot_failure [] "@LEDERDATA_OFC_BOT" 1000) "@LEDERDATA_OFC_BOT" 1000).1 = true ∧
    (is_bot_blocked (record_bot_failure [] "@LEDERDATA_OFC_BOT" 1000) "@LEDERDATA_OFC_BOT" 20000).1 = false ∧
    trackerGet (is_bot_blocked (record_bot_failure [] "@LEDERDATA_OFC_BOT" 1000) "@LEDERDATA_OFC_BOT" 20000).2 "@LEDERDATA_OFC_BOT" = none := by
  have h := claim_C3_theorem [] "@LEDERDATA_OFC_BOT" 1000 20000 (by simp [trackerWF])
  have h2 := h.2 (by omega)
  exact ⟨by simp [trackerWF], h.1, h2.1, h2.2⟩


/-- Claim C5: the two-record scenario input parses to exactly the two
expected records, in order. -/
theorem claim_C5_theorem :
    universalParser "DNI : 12345678\nNOMBRE : Juan Perez\n\nDNI : 87654321\nNOMBRE : Ana Lopez" =
      ParseResult.multiple
        [[("DNI", JVal.str "12345678"), ("NOMBRE", JVal.str "Juan Perez")],
         [("DNI", JVal.str "87654321"), ("NOMBRE", JVal.str "Ana Lopez")]] := by
  decide

/-- Claim C1 counterexample: the input holds N = 2 occurrences of the
identification-number pivot label `DNI` and no other label, yet the
parser returns a single record (not two), with both values accumulated
under the one label: record boundaries in the code are blank lines, not
pivot labels. -/
theorem claim_C1_counterexample :
    universalParser "DNI : 111\nDNI : 222" =
      ParseResult.single [("DNI", JVal.seq ["111", "222"])] := by
  decide

/-- Claim C2 counterexample: the input's single internal line break does
not survive — `re.sub(r"\s+", " ", text)` turns it into a space. -/
theorem claim_C2_counterexample :
    clean_and_extract "A : 1\nB : 2" =
      { text := "A : 1 B : 2", fields := { photo_type := none, not_found := false } } ∧
    '\n' ∈ "A : 1\nB : 2".toList ∧
    '\n' ∉ (clean_and_extract "A : 1\nB : 2").text.toList := by
  refine ⟨by decide, by decide, by decide⟩

theorem mem_pyStrip (cs : List Char) (c : Char) (h : c ∈ pyStrip cs) : c ∈ cs := by
  simp only [pyStrip, List.mem_reverse] at h
  have h1 := List.dropWhile_sublist (l := (cs.dropWhile isPySpace).reverse) (p := isPySpace)
  have h2 := h1.mem h
  simp only [List.mem_reverse] at h2
  exact (List.dropWhile_sublist _).mem h2

theorem collapseRunsAux_ws_mem (fuel : Nat) :
    ∀ cs : List Char, cs.length < fuel →
      ∀ c ∈ collapseRunsAux isPySpace ' ' fuel cs, c = ' ' ∨ isPySpace c = false := by
  induction fuel with
  | zero => intro cs h; omega
  | succ fuel ih =>
    intro cs hlen c hc
    match cs with
    | [] => simp [collapseRunsAux] at hc
    | d :: rest =>
      simp only [collapseRunsAux] at hc
      by_cases hd : isPySpace d
      · rw [if_pos hd] at hc
        rcases List.mem_cons.mp hc with h1 | h1
        · exact Or.inl h1
        · refine ih _ ?_ c h1
          have := dropWhile_length_le isPySpace rest
          simp only [List.length_cons] at hlen
          omega
      · rw [if_neg hd] at hc
        rcases List.mem_cons.mp hc with h1 | h1
        · exact Or.inr (h1 ▸ by simpa using hd)
        · refine ih _ ?_ c h1
          simp only [List.length_cons] at hlen
          omega

theorem collapseBlank_no_nl (fuel : Nat) :
    ∀ cs : List Char, '\n' ∉ cs → collapseBlank fuel cs = cs := by
  induction fuel with
  | zero => intro cs _; rfl
  | succ fuel ih =>
    intro cs hnl
    match cs with
    | [] => rfl
    | c :: rest =>
      have hc : c ≠ '\n' := fun e => hnl (e ▸ List.mem_cons_self c rest)
      have hb : blankPat (c :: rest) = none := by
        unfold blankPat
        split
        · next rest2 heq =>
            injection heq with h1 h2
            exact absurd h1 hc
        · rfl
      simp only [collapseBlank, hb]
      rw [ih rest (fun h => hnl (List.mem_cons_of_mem c h))]

/-- Claim C2 amended: the extractor's output never contains a line
break at all — the whitespace normalization collapses every whitespace
run, line breaks included, into one space. -/
theorem claim_C2_theorem (raw : String) :
    '\n' ∉ (clean_and_extract raw).text.toList := by
  unfold clean_and_extract
  by_cases h : raw.isEmpty
  · simp [h, String.toList]
  · rw [if_neg h]
    simp only []
    intro hmem
    have h6 : '\n' ∉ pyStrip (collapseRuns isPySpace ' '
        (substTop dashesPat (substTop footerPat
          (match headerPat (substTop consultaTagPat (substTop lederTagPat raw.toList)) with
            | some rem => rem
            | none => substTop consultaTagPat (substTop lederTagPat raw.toList))))) := by
      intro h6m
      have := collapseRunsAux_ws_mem _ _ (Nat.lt_succ_self _) '\n' (mem_pyStrip _ _ h6m)
      rcases this with h' | h' <;> simp [isPySpace] at h'
    have hmem2 := mem_pyStrip _ _ hmem
    rw [collapseBlank_no_nl _ _ h6] at hmem2
    exact h6 hmem2

theorem recLookup_insertPair_self (obj : PRecord) (k : String) (v : String) :
    recLookup (insertPair obj k v) k =
      match recLookup obj k with
      | none => some (JVal.str v)
      | some (JVal.str s) => some (JVal.seq [s, v])
      | some (JVal.seq ss) => some (JVal.seq (ss ++ [v])) := by
  induction obj with
  | nil => simp [insertPair, recLookup]
  | cons p rest ih =>
    obtain ⟨pk, pv⟩ := p
    by_cases h : pk = k
    · subst h
      cases pv <;> simp [insertPair, recLookup]
    · simp [insertPair, recLookup, h, ih]

theorem recLookup_insertPair_other (obj : PRecord) (k' k : String) (v : String)
    (h : k' ≠ k) :
    recLookup (insertPair obj k' v) k = recLookup obj k := by
  induction obj with
  | nil => simp [insertPair, recLookup, h]
  | cons p rest ih =>
    obtain ⟨pk, pv⟩ := p
    by_cases h2 : pk = k'
    · subst h2
      cases pv <;> simp [insertPair, recLookup, h]
    · by_cases h3 : pk = k
      · simp [insertPair, recLookup, h2, h3, Ne.symm h]
      · simp [insertPair, recLookup, h2, h3, ih]

theorem recLookup_foldl (ps : List (String × String)) (k : String) :
    ∀ obj : PRecord,
      recLookup (ps.foldl (fun o p => insertPair o p.1 p.2) obj) k =
        jAppend (recLookup obj k) (valuesOf ps k) := by
  induction ps with
  | nil => intro obj; simp [valuesOf, jAppend]
  | cons p ps ih =>
    intro obj
    by_cases h : p.1 = k
    · have hv : valuesOf (p :: ps) k = p.2 :: valuesOf ps k := by
        simp [valuesOf, h]
      rw [List.foldl_cons, ih, hv]
      rw [h, recLookup_insertPair_self]
      cases hobj : recLookup obj k with
      | none => simp [jAppend]
      | some jv => cases jv <;> simp [jAppend]
    · have hv : valuesOf (p :: ps) k = valuesOf ps k := by
        simp [valuesOf, h]
      rw [List.foldl_cons, ih, hv, recLookup_insertPair_other _ _ _ _ h]

theorem jAppend_seq (ss : List String) (vs : List String) :
    jAppend (some (JVal.seq ss)) vs = some (JVal.seq (ss ++ vs)) := by
  induction vs generalizing ss with
  | nil => simp [jAppend]
  | cons v vs ih => simp [jAppend, ih]

/-- Claim C8: within one record, a label that occurs two or more times
among the extracted pairs maps to the ordered sequence of all its values
in occurrence order — nothing is overwritten. -/
theorem claim_C8_theorem (ps : List (String × String)) (k : String)
    (h : 2 ≤ (valuesOf ps k).length) :
    recLookup (buildRecord ps) k = some (JVal.seq (valuesOf ps k)) := by
  unfold buildRecord
  rw [recLookup_foldl]
  match hv : valuesOf ps k with
  | [] => rw [hv] at h; simp at h
  | [v] => rw [hv] at h; simp at h
  | v :: w :: ws =>
    show jAppend (recLookup [] k) (v :: w :: ws) = some (JVal.seq (v :: w :: ws))
    simp only [recLookup, jAppend, jAppend_seq]
    rfl

theorem claim_C8_witness :
    2 ≤ (valuesOf [("DNI", "1"), ("X", "z"), ("DNI", "2")] "DNI").length ∧
    recLookup (buildRecord [("DNI", "1"), ("X", "z"), ("DNI", "2")]) "DNI" =
      some (JVal.seq (valuesOf [("DNI", "1"), ("X", "z"), ("DNI", "2")] "DNI")) :=
  ⟨by decide, claim_C8_theorem [("DNI", "1"), ("X", "z"), ("DNI", "2")] "DNI" (by decide)⟩

/-- Claim C7 counterexample: a buffered not-found flag does not override
the incorrect-format check — with both present the assembler fails with
the format error, because the format check runs first. -/
theorem claim_C7_counterexample :
    process_bot_response
      [{ message := "Por favor, usa el formato correcto", fields := {}, urls := [], mediaUrl := none },
       { message := "x", fields := { photo_type := none, not_found := true }, urls := [], mediaUrl := none }] =
      ApiResponse.error "Formato incorrecto." ∧
    ({ message := "x", fields := { photo_type := none, not_found := true }, urls := [],
       mediaUrl := none } : Msg).fields.not_found = true := by
  refine ⟨by decide, rfl⟩

/-- Claim C7 amended: when some buffered message's flags include
`not_found` and no buffered message's text contains the (case-folded)
incorrect-format phrase, the assembler fails with the not-found error,
regardless of everything else. -/
theorem claim_C7_theorem (msgs : List Msg)
    (hnf : ∃ m ∈ msgs, m.fields.not_found = true)
    (hfmt : ∀ m ∈ msgs, hasFormatoIncorrecto m = false) :
    process_bot_response msgs = ApiResponse.error "No se encontraron resultados." := by
  unfold process_bot_response
  have h1 : msgs.any hasFormatoIncorrecto = false := by
    simp only [List.any_eq_false]
    intro m hm
    simp [hfmt m hm]
  have h2 : msgs.any (fun m => m.fields.not_found) = true := by
    simp only [List.any_eq_true]
    exact hnf
  simp [h1, h2]

theorem claim_C7_witness :
    process_bot_response
      [{ message := "x", fields := { photo_type := none, not_found := true }, urls := [],
         mediaUrl := none }] = ApiResponse.error "No se encontraron resultados." :=
  claim_C7_theorem _ (by decide) (by decide)


/-- Claim C4: when a query's final collection state holds zero buffered
messages, the orchestrator records a primary-channel failure and fails
with the primary no-response error exactly on the unescalated,
initially-unblocked primary path; on every other empty path it fails
with the generic no-response error and records nothing. -/
theorem claim_C4_theorem (tr : Tracker) (now : Int) (fe be : List Event)
    (hempty : (send_telegram_command tr now fe be).1.finalSession.buffered = []) :
    ((send_telegram_command tr now fe be).1.primaryBlocked = false ∧
     (send_telegram_command tr now fe be).1.escalated = false →
       (send_telegram_command tr now fe be).1.recordedFailure = true ∧
       (send_telegram_command tr now fe be).1.response =
         ApiResponse.error "No se obtuvo respuesta del bot principal." ∧
       (send_telegram_command tr now fe be).2 =
         record_bot_failure (is_bot_blocked tr LEDERDATA_PRIMARY_BOT_ID now).2
           LEDERDATA_PRIMARY_BOT_ID now) ∧
    ((send_telegram_command tr now fe be).1.primaryBlocked = true ∨
     (send_telegram_command tr now fe be).1.escalated = true →
       (send_telegram_command tr now fe be).1.recordedFailure = false ∧
       (send_telegram_command tr now fe be).1.response =
         ApiResponse.error "No se obtuvo respuesta del bot." ∧
       (send_telegram_command tr now fe be).2 =
         (is_bot_blocked tr LEDERDATA_PRIMARY_BOT_ID now).2) := by
  by_cases hpb : (is_bot_blocked tr LEDERDATA_PRIMARY_BOT_ID now).1 <;>
  by_cases has : (collectSession true fe).antiSpam
  all_goals
    simp only [send_telegram_command, hpb, has, Bool.true_and, Bool.false_and,
      Bool.and_true, Bool.and_false, Bool.not_true, Bool.not_false, Bool.true_or,
      Bool.false_or, Bool.or_true, Bool.or_false, if_true, if_false,
      Bool.and_self, Bool.not_not] at hempty ⊢
  all_goals
    by_cases hb1 : (collectSession true fe).buffered = [] <;>
    by_cases hb2 : (collectSession false be).buffered = [] <;>
    simp_all

theorem claim_C4_witness :
    (send_telegram_command [] 0 [] []).1.finalSession.buffered = [] ∧
    (send_telegram_command [] 0 [] []).1.recordedFailure = true ∧
    (send_telegram_command [] 0 [] []).1.response =
      ApiResponse.error "No se obtuvo respuesta del bot principal." := by
  have h := claim_C4_theorem [] 0 [] [] (by decide)
  have h2 := h.1 ⟨by decide, by decide⟩
  exact ⟨by decide, h2.1, h2.2.1⟩

theorem handleEvent_noDetect_antiSpam (s : Session) (e : Event) :
    (handleEvent false s e).antiSpam = s.antiSpam := by
  simp only [handleEvent, Bool.false_and]
  split_ifs <;> first | rfl | contradiction

theorem collect_noDetect_antiSpam (evs : List Event) :
    ∀ s : Session, (evs.foldl (handleEvent false) s).antiSpam = s.antiSpam := by
  induction evs with
  | nil => intro s; rfl
  | cons e evs ih =>
    intro s
    rw [List.foldl_cons, ih, handleEvent_noDetect_antiSpam]

/-- Claim C6: escalation happens exactly when throttling was detected
during the first collection and the primary channel was in use; it
switches to the backup channel with the shorter anti-spam timeout
budget, restarts from a fresh session (so the final session is exactly
the backup collection from the initial state), runs exactly one extra
attempt (never more than two in total), and the backup collection can
never raise the throttled flag again. -/
theorem claim_C6_theorem (tr : Tracker) (now : Int) (fe be : List Event) :
    ((send_telegram_command tr now fe be).1.escalated = true ↔
      ((collectSession true fe).antiSpam = true ∧
       (send_telegram_command tr now fe be).1.primaryBlocked = false)) ∧
    ((send_telegram_command tr now fe be).1.escalated = true →
      (send_telegram_command tr now fe be).1.attempts =
        [{ channel := LEDERDATA_PRIMARY_BOT_ID, timeoutSec := TIMEOUT_PRIMARY },
         { channel := LEDERDATA_BACKUP_BOT_ID, timeoutSec := TIMEOUT_BACKUP }] ∧
      (send_telegram_command tr now fe be).1.finalSession = collectSession false be ∧
      (send_telegram_command tr now fe be).1.finalSession.antiSpam = false) ∧
    (send_telegram_command tr now fe be).1.attempts.length ≤ 2 ∧
    ((send_telegram_command tr now fe be).1.escalated = false →
      (send_telegram_command tr now fe be).1.attempts.length = 1) ∧
    TIMEOUT_BACKUP < TIMEOUT_PRIMARY ∧ TIMEOUT_BACKUP < TIMEOUT_BACKUP_NORMAL := by
  have hns : (collectSession false be).antiSpam = false := by
    unfold collectSession
    rw [collect_noDetect_antiSpam]
    rfl
  by_cases hpb : (is_bot_blocked tr LEDERDATA_PRIMARY_BOT_ID now).1 <;>
  by_cases has : (collectSession true fe).antiSpam
  all_goals
    simp only [send_telegram_command, hpb, has, Bool.true_and, Bool.false_and,
      Bool.and_true, Bool.and_false, Bool.not_true, Bool.not_false, Bool.true_or,
      Bool.false_or, Bool.or_true, Bool.or_false, if_true, if_false,
      Bool.and_self, Bool.not_not]
  all_goals
    by_cases hb1 : (collectSession true fe).buffered = [] <;>
    by_cases hb2 : (collectSession false be).buffered = [] <;>
    simp_all [TIMEOUT_BACKUP, TIMEOUT_PRIMARY, TIMEOUT_BACKUP_NORMAL]

theorem claim_C6_witness :
    (send_telegram_command [] 0
      [{ fromSelected := true, raw := "[⛔] ANTI-SPAM DETECTADO [⛔] INTENTA DESPUES", mediaUrl := none }]
      [{ fromSelected := true, raw := "DNI : 123", mediaUrl := none }]).1.escalated = true ∧
    (send_telegram_command [] 0
      [{ fromSelected := true, raw := "[⛔] ANTI-SPAM DETECTADO [⛔] INTENTA DESPUES", mediaUrl := none }]
      [{ fromSelected := true, raw := "DNI : 123", mediaUrl := none }]).1.attempts =
      [{ channel := LEDERDATA_PRIMARY_BOT_ID, timeoutSec := TIMEOUT_PRIMARY },
       { channel := LEDERDATA_BACKUP_BOT_ID, timeoutSec := TIMEOUT_BACKUP }] ∧
    (send_telegram_command [] 0
      [{ fromSelected := true, raw := "[⛔] ANTI-SPAM DETECTADO [⛔] INTENTA DESPUES", mediaUrl := none }]
      [{ fromSelected := true, raw := "DNI : 123", mediaUrl := none }]).1.finalSession =
      collectSession false [{ fromSelected := true, raw := "DNI : 123", mediaUrl := none }] := by
  have h := claim_C6_theorem [] 0
    [{ fromSelected := true, raw := "[⛔] ANTI-SPAM DETECTADO [⛔] INTENTA DESPUES", mediaUrl := none }]
    [{ fromSelected := true, raw := "DNI : 123", mediaUrl := none }]
  have hesc := h.1.mpr ⟨by decide, by decide⟩
  have h2 := h.2.1 hesc
  exact ⟨hesc, h2.1, h2.2.1⟩


theorem normalizeCR_mem (cs : List Char) :
    ∀ c ∈ normalizeCR cs, c ∈ cs ∨ c = '\n' := by
  induction cs with
  | nil => simp [normalizeCR]
  | cons a rest ih =>
    intro c hc
    by_cases h : a = '\r'
    · subst h
      by_cases h2 : rest.head? = some '\n'
      · rw [show normalizeCR ('\r' :: rest) = normalizeCR rest by
          simp [normalizeCR, h2]] at hc
        rcases ih c hc with h3 | h3
        · exact Or.inl (List.mem_cons_of_mem _ h3)
        · exact Or.inr h3
      · rw [show normalizeCR ('\r' :: rest) = '\n' :: normalizeCR rest by
          simp [normalizeCR, h2]] at hc
        rcases List.mem_cons.mp hc with h3 | h3
        · exact Or.inr h3
        · rcases ih c h3 with h4 | h4
          · exact Or.inl (List.mem_cons_of_mem _ h4)
          · exact Or.inr h4
    · rw [show normalizeCR (a :: rest) = a :: normalizeCR rest by
        simp [normalizeCR, h]] at hc
      rcases List.mem_cons.mp hc with h3 | h3
      · exact Or.inl (h3 ▸ List.mem_cons_self a rest)
      · rcases ih c h3 with h4 | h4
        · exact Or.inl (List.mem_cons_of_mem _ h4)
        · exact Or.inr h4

theorem mem_skipWS (cs : List Char) (c : Char) (h : c ∈ skipWS cs) : c ∈ cs :=
  (List.dropWhile_sublist _).mem h

theorem findKey_eq_none_of_noColon (cs : List Char) (h : ∀ c ∈ cs, c ≠ ':') :
    findKey cs = none := by
  unfold findKey
  rw [List.find?_eq_none]
  intro k _
  cases hk : skipWS (cs.drop k) with
  | nil => simp
  | cons d rest =>
    by_cases hd : d = ':'
    · exfalso
      have : d ∈ skipWS (cs.drop k) := hk ▸ List.mem_cons_self d rest
      have : d ∈ cs := (List.drop_sublist k cs).mem (mem_skipWS _ _ this)
      exact h d this hd
    · simp [hd]

theorem mem_dropLine (cs : List Char) (c : Char) (h : c ∈ dropLine cs) : c ∈ cs := by
  unfold dropLine at h
  have h2 := (List.tail_sublist _).mem h
  exact (List.dropWhile_sublist _).mem h2

theorem findPairsAux_eq_nil_of_noColon (fuel : Nat) :
    ∀ (cs : List Char) (atLS : Bool), (∀ c ∈ cs, c ≠ ':') →
      findPairsAux fuel cs atLS = [] := by
  induction fuel with
  | zero => intro cs atLS _; rfl
  | succ fuel ih =>
    intro cs atLS h
    match cs with
    | [] => rfl
    | d :: rest =>
      have hm : matchAt (d :: rest) = none := by
        unfold matchAt
        rw [findKey_eq_none_of_noColon _ h]
      have hdl : ∀ c ∈ dropLine (d :: rest), c ≠ ':' :=
        fun c hc => h c (mem_dropLine _ c hc)
      by_cases hls : atLS
      · simp only [findPairsAux, hls, if_true, hm]
        exact ih _ _ hdl
      · simp only [findPairsAux, hls, if_false]
        exact ih _ _ hdl

theorem blocksAux_mem (fuel : Nat) :
    ∀ (cs acc : List Char) (b : List Char), b ∈ blocksAux fuel cs acc →
      ∀ c ∈ b, c ∈ cs ∨ c ∈ acc := by
  induction fuel with
  | zero =>
    intro cs acc b hb c hc
    simp only [blocksAux, List.mem_singleton] at hb
    exact Or.inr (by rw [hb] at hc; simpa using hc)
  | succ fuel ih =>
    intro cs acc b hb c hc
    match cs with
    | [] =>
      simp only [blocksAux, List.mem_singleton] at hb
      exact Or.inr (by rw [hb] at hc; simpa using hc)
    | d :: rest =>
      by_cases hd : isPySpace d
      · simp only [blocksAux, hd, if_true] at hb
        by_cases hsep : 2 ≤ ((d :: rest).takeWhile isPySpace).count '\n'
        · rw [if_pos hsep] at hb
          rcases List.mem_cons.mp hb with h1 | h1
          · exact Or.inr (by rw [h1] at hc; simpa using hc)
          · rcases ih _ _ _ h1 c hc with h2 | h2
            · exact Or.inl ((List.dropWhile_sublist _).mem h2)
            · simp at h2
        · rw [if_neg hsep] at hb
          rcases ih _ _ _ hb c hc with h2 | h2
          · exact Or.inl ((List.dropWhile_sublist _).mem h2)
          · rcases List.mem_append.mp h2 with h3 | h3
            · simp only [List.mem_reverse] at h3
              exact Or.inl ((List.takeWhile_sublist _).mem h3)
            · exact Or.inr h3
      · simp only [blocksAux, hd, if_false] at hb
        rcases ih _ _ _ hb c hc with h2 | h2
        · exact Or.inl (List.mem_cons_of_mem _ h2)
        · rcases List.mem_cons.mp h2 with h3 | h3
          · exact Or.inl (h3 ▸ List.mem_cons_self d rest)
          · exact Or.inr h3

/-- Claim C9: an input containing no colon at all (hence no
label-colon-value pair) parses to the empty record; the parser is a
total function, so it returns a structure on every input. -/
theorem claim_C9_theorem (raw : String) (h : ∀ c ∈ raw.toList, c ≠ ':') :
    universalParser raw = ParseResult.single [] := by
  unfold universalParser
  by_cases hempty : pyStrip raw.toList = []
  · rw [if_pos hempty]
  · rw [if_neg hempty]
    have htext : ∀ c ∈ pyStrip (normalizeCR raw.toList), c ≠ ':' := by
      intro c hc
      have h1 := mem_pyStrip _ _ hc
      rcases normalizeCR_mem _ c h1 with h2 | h2
      · exact h c h2
      · exact fun e => by simp [e] at h2
    have hblocks : ∀ b ∈ splitBlocks (pyStrip (normalizeCR raw.toList)),
        ∀ c ∈ b, c ≠ ':' := by
      intro b hb c hc
      unfold splitBlocks at hb
      rcases List.mem_filter.mp hb with ⟨hb1, _⟩
      rcases List.mem_map.mp hb1 with ⟨b0, hb0, rfl⟩
      have h1 := mem_pyStrip _ _ hc
      rcases blocksAux_mem _ _ _ _ hb0 c h1 with h2 | h2
      · exact htext c h2
      · simp at h2
    have hparsed : ((splitBlocks (pyStrip (normalizeCR raw.toList))).map parse_block).filter
        (· ≠ []) = [] := by
      rw [List.filter_eq_nil_iff]
      intro r hr
      rcases List.mem_map.mp hr with ⟨b, hb, rfl⟩
      have : parse_block b = [] := by
        unfold parse_block findPairs
        rw [findPairsAux_eq_nil_of_noColon _ _ _ (hblocks b hb)]
        rfl
      simp [this]
    simp only [hparsed]

theorem claim_C9_witness :
    universalParser "hola mundo sin pares" = ParseResult.single [] :=
  claim_C9_theorem "hola mundo sin pares" (by decide)


theorem dictHasKey_set (d : Data) (k : String) (v : DataVal) (k2 : String) :
    dictHasKey (dictSet d k v) k2 = true ↔ dictHasKey d k2 = true ∨ k2 = k := by
  induction d with
  | nil => simp [dictSet, dictHasKey]
  | cons p rest ih =>
    obtain ⟨pk, pv⟩ := p
    by_cases h : pk = k
    · subst h
      simp only [dictSet, if_pos rfl, dictHasKey, List.map_cons, List.contains_cons]
      simp [dictHasKey] at ih ⊢
      tauto
    · simp only [dictSet, if_neg h, dictHasKey, List.map_cons, List.contains_cons]
      simp [dictHasKey] at ih ⊢
      tauto

theorem dictHasKey_update (es : Data) :
    ∀ (d : Data) (k : String),
      dictHasKey (dictUpdate d es) k = true ↔
        dictHasKey d k = true ∨ k ∈ es.map Prod.fst := by
  induction es with
  | nil => intro d k; simp [dictUpdate]
  | cons e es ih =>
    intro d k
    show dictHasKey (dictUpdate (dictSet d e.1 e.2) es) k = true ↔ _
    rw [ih]
    rw [dictHasKey_set]
    simp only [List.map_cons, List.mem_cons]
    tauto

theorem fieldsToData_keys (f : Fields) (k : String)
    (h : k ∈ (fieldsToData f).map Prod.fst) :
    k = "photo_type" ∨ k = "not_found" := by
  unfold fieldsToData at h
  rcases hp : f.photo_type with _ | p <;> rcases hn : f.not_found <;>
    simp [hp, hn] at h <;> tauto

theorem recordToData_keys (r : PRecord) :
    (recordToData r).map Prod.fst = r.map Prod.fst := by
  unfold recordToData
  rw [List.map_map]
  rfl

theorem universalParser_multiple (raw : String) (rs : List PRecord)
    (h : universalParser raw = ParseResult.multiple rs) :
    2 ≤ rs.length ∧ ∀ r ∈ rs, r ≠ [] := by
  unfold universalParser at h
  by_cases hempty : pyStrip raw.toList = []
  · rw [if_pos hempty] at h
    exact absurd h (by simp)
  · rw [if_neg hempty] at h
    simp only [] at h
    rcases hp : ((splitBlocks (pyStrip (normalizeCR raw.toList))).map parse_block).filter
        (· ≠ []) with _ | ⟨b1, _ | ⟨b2, bs⟩⟩
    · rw [hp] at h
      exact absurd h (by simp)
    · rw [hp] at h
      exact absurd h (by simp)
    · rw [hp] at h
      have hrs : rs = b1 :: b2 :: bs := by
        cases h
        rfl
      subst hrs
      refine ⟨by simp, ?_⟩
      intro r hr
      have hrf : r ∈ ((splitBlocks (pyStrip (normalizeCR raw.toList))).map parse_block).filter
          (· ≠ []) := hp ▸ hr
      have := List.of_mem_filter hrf
      simpa using this

theorem recHasKey_iff (r : PRecord) (k : String) :
    recHasKey r k = true ↔ k ∈ r.map Prod.fst := List.elem_iff

theorem process_success_denuncias (msgs : List Msg) (d : Data) (rm : String)
    (h : process_bot_response msgs = ApiResponse.success d rm) :
    (dictHasKey d "denuncias" = true ↔
      (∃ rs, universalParser (combine_messages (applyDownloads msgs)) =
        ParseResult.multiple rs) ∨
      (∃ r, universalParser (combine_messages (applyDownloads msgs)) =
        ParseResult.single r ∧ recHasKey r "denuncias" = true)) := by
  unfold process_bot_response at h
  by_cases h1 : msgs.any hasFormatoIncorrecto
  · rw [if_pos h1] at h
    exact absurd h (by simp)
  · rw [if_neg h1] at h
    by_cases h2 : msgs.any (fun m => m.fields.not_found)
    · rw [if_pos h2] at h
      exact absurd h (by simp)
    · rw [if_neg h2] at h
      simp only [] at h
      have hurls : ∀ (dd : Data) (us : List String),
          dictHasKey (if us ≠ [] then dictSet dd "urls" (DataVal.urls us) else dd)
            "denuncias" = true ↔ dictHasKey dd "denuncias" = true := by
        intro dd us
        split
        · rw [dictHasKey_set]
          constructor
          · rintro (hx | hx)
            · exact hx
            · exact absurd hx (by decide)
          · exact Or.inl
        · exact Iff.rfl
      have hflds : ∀ (dd : Data) (ff : Fields),
          dictHasKey (dictUpdate dd (fieldsToData ff)) "denuncias" = true ↔
            dictHasKey dd "denuncias" = true := by
        intro dd ff
        rw [dictHasKey_update]
        constructor
        · rintro (hx | hx)
          · exact hx
          · rcases fieldsToData_keys ff _ hx with he | he <;> exact absurd he (by decide)
        · exact Or.inl
      rcases hp : universalParser (combine_messages (applyDownloads msgs)) with r | rs
      · rw [hp] at h
        by_cases hr : r = []
        · subst hr
          simp only [ne_eq, not_true_eq_false, if_false, reduceIte] at h
          injection h with hd hrm
          subst hd
          rw [hurls, hflds]
          constructor
          · intro hx
            simp [dictHasKey] at hx
          · rintro (⟨rs, hrs⟩ | ⟨r, hr2, hk⟩)
            · exact absurd hrs (by simp)
            · have : r = [] := by
                injection hr2 with he
                exact he.symm
              subst this
              simp [recHasKey] at hk
        · simp only [] at h
          rw [if_pos hr] at h
          injection h with hd hrm
          subst hd
          rw [hurls]
          rw [dictHasKey_update, recordToData_keys]
          rw [hflds]
          constructor
          · rintro (hx | hx)
            · simp [dictHasKey] at hx
            · exact Or.inr ⟨r, rfl, (recHasKey_iff r _).mpr hx⟩
          · rintro (⟨rs, hrs⟩ | ⟨r2, hr2, hk⟩)
            · exact absurd hrs (by simp)
            · have : r2 = r := by
                injection hr2 with he
                exact he.symm
              subst this
              exact Or.inr ((recHasKey_iff r2 _).mp hk)
      · rw [hp] at h
        simp only [] at h
        by_cases hff : fieldsToData (mergeFields (applyDownloads msgs)) ≠ []
        · rw [if_pos hff] at h
          injection h with hd hrm
          subst hd
          rw [hurls, hflds, dictHasKey_set]
          constructor
          · intro _
            exact Or.inl ⟨rs, rfl⟩
          · intro _
            exact Or.inr rfl
        · rw [if_neg hff] at h
          injection h with hd hrm
          subst hd
          rw [hurls, dictHasKey_set]
          constructor
          · intro _
            exact Or.inl ⟨rs, rfl⟩
          · intro _
            exact Or.inr rfl

/-- Claim C10 amended: the parser never returns an empty or one-element
sequence — a `multiple` result has at least two records, all non-empty;
and on the assembler's success path the `denuncias` key appears exactly
when the parser returned a sequence, or when the single parsed record
itself carries a literal `denuncias` label. -/
theorem claim_C10_theorem :
    (∀ (raw : String) (rs : List PRecord),
        universalParser raw = ParseResult.multiple rs →
          2 ≤ rs.length ∧ ∀ r ∈ rs, r ≠ []) ∧
    (∀ (msgs : List Msg) (d : Data) (rm : String),
        process_bot_response msgs = ApiResponse.success d rm →
        (dictHasKey d "denuncias" = true ↔
          (∃ rs, universalParser (combine_messages (applyDownloads msgs)) =
            ParseResult.multiple rs) ∨
          (∃ r, universalParser (combine_messages (applyDownloads msgs)) =
            ParseResult.single r ∧ recHasKey r "denuncias" = true))) :=
  ⟨universalParser_multiple, process_success_denuncias⟩

/-- Claim C10 counterexample: one buffered message whose text carries a
literal `denuncias` label makes the `denuncias` key appear in the output
although only a single record was parsed. -/
theorem claim_C10_counterexample :
    process_bot_response
      [{ message := "denuncias : 5", fields := {}, urls := [], mediaUrl := none }] =
      ApiResponse.success [("denuncias", DataVal.s "5")] "denuncias : 5" ∧
    universalParser "denuncias : 5" = ParseResult.single [("denuncias", JVal.str "5")] ∧
    dictHasKey [("denuncias", DataVal.s "5")] "denuncias" = true := by
  refine ⟨by decide, by decide, by decide⟩

theorem claim_C10_witness :
    2 ≤ ([[("A", JVal.str "1")], [("B", JVal.str "2")]] : List PRecord).length ∧
    ∀ r ∈ ([[("A", JVal.str "1")], [("B", JVal.str "2")]] : List PRecord), r ≠ [] :=
  claim_C10_theorem.1 "A : 1\n\nB : 2" _ (by decide)


theorem dropWhile_cons_self {p : Char → Bool} {a : Char} (t : List Char)
    (h : p a = false) : (a :: t).dropWhile p = a :: t := by
  simp [List.dropWhile_cons, h]

theorem dropWhile_self_head {p : Char → Bool} {a : Char} {t : List Char}
    (h : (a :: t).dropWhile p = a :: t) : p a = false := by
  by_cases hp : p a
  · exfalso
    rw [List.dropWhile_cons, if_pos hp] at h
    have := dropWhile_length_le p t
    rw [h] at this
    simp at this
  · simpa using hp

theorem takeWhile_append_of_not {p : Char → Bool} :
    ∀ (l1 : List Char), (∃ x ∈ l1, p x = false) → ∀ l2 : List Char,
      ((l1 ++ l2).takeWhile p = l1.takeWhile p ∧
       (l1 ++ l2).dropWhile p = l1.dropWhile p ++ l2) := by
  intro l1 h
  induction l1 with
  | nil => simp at h
  | cons a t ih =>
    intro l2
    by_cases hp : p a
    · rcases h with ⟨x, hx, hpx⟩
      rcases List.mem_cons.mp hx with rfl | hx2
      · rw [hp] at hpx; exact absurd hpx (by simp)
      · have := ih ⟨x, hx2, hpx⟩ l2
        simp only [List.cons_append, List.takeWhile_cons, List.dropWhile_cons, hp,
          if_pos rfl]
        rw [this.1, this.2]
        simp [hp]
    · simp [List.takeWhile_cons, List.dropWhile_cons, hp]

theorem pyStrip_parts (cs : List Char) (h : pyStrip cs = cs) :
    cs.dropWhile isPySpace = cs ∧ cs.reverse.dropWhile isPySpace = cs.reverse := by
  have h1 : (cs.dropWhile isPySpace).length ≥ cs.length := by
    have h2 : cs.length = ((cs.dropWhile isPySpace).reverse.dropWhile isPySpace).length := by
      conv_lhs => rw [← h]
      simp [pyStrip]
    have h3 := dropWhile_length_le isPySpace (cs.dropWhile isPySpace).reverse
    simp only [List.length_reverse] at h3
    omega
  have heq : cs.dropWhile isPySpace = cs :=
    (List.dropWhile_sublist _).eq_of_length (Nat.le_antisymm (dropWhile_length_le _ _) h1)
  refine ⟨heq, ?_⟩
  unfold pyStrip at h
  rw [heq] at h
  calc cs.reverse.dropWhile isPySpace
      = ((cs.reverse.dropWhile isPySpace).reverse).reverse := by simp
    _ = cs.reverse := by rw [h]

theorem pyStrip_of_parts (cs : List Char) (h1 : cs.dropWhile isPySpace = cs)
    (h2 : cs.reverse.dropWhile isPySpace = cs.reverse) : pyStrip cs = cs := by
  unfold pyStrip
  rw [h1, h2, List.reverse_reverse]

theorem collapseRunsAux_eq_self (p : Char → Bool) (rep : Char) (fuel : Nat) :
    ∀ cs : List Char, (∀ c ∈ cs, p c = false) → collapseRunsAux p rep fuel cs = cs := by
  induction fuel with
  | zero => intro cs _; rfl
  | succ fuel ih =>
    intro cs h
    match cs with
    | [] => rfl
    | c :: rest =>
      have hc : p c = false := h c (List.mem_cons_self c rest)
      rw [show collapseRunsAux p rep (fuel + 1) (c :: rest) =
          c :: collapseRunsAux p rep fuel rest by simp [collapseRunsAux, hc]]
      rw [ih rest (fun x hx => h x (List.mem_cons_of_mem c hx))]

theorem normalizeCR_eq_self (cs : List Char) (h : ∀ c ∈ cs, c ≠ '\r') :
    normalizeCR cs = cs := by
  induction cs with
  | nil => rfl
  | cons c rest ih =>
    have hc : c ≠ '\r' := h c (List.mem_cons_self c rest)
    simp only [normalizeCR, if_neg hc]
    rw [ih (fun x hx => h x (List.mem_cons_of_mem c hx))]

theorem valueLenAux_no_nl (r : List Char) (h : ∀ c ∈ r, c ≠ '\n') :
    valueLenAux r = r.length := by
  induction r with
  | nil => rfl
  | cons c rest ih =>
    have hc : c ≠ '\n' := h c (List.mem_cons_self c rest)
    simp [valueLenAux, hc, ih (fun x hx => h x (List.mem_cons_of_mem c hx))]
    omega

theorem findPairsAux_nil (fuel : Nat) (b : Bool) : findPairsAux fuel [] b = [] := by
  cases fuel <;> rfl

theorem goodVal_spec (v : String) (h : goodVal v = true) :
    v.toList ≠ [] ∧ (∀ c ∈ v.toList, c ≠ ':' ∧ c ≠ '\n' ∧ c ≠ '\r') ∧
    pyStrip v.toList = v.toList ∧
    collapseRuns (fun c => c = ' ' || c = '\t') ' ' v.toList = v.toList := by
  simp only [goodVal, Bool.and_eq_true, List.all_eq_true, decide_eq_true_eq,
    Bool.not_eq_true'] at h
  obtain ⟨⟨⟨h1, h2⟩, h3⟩, h4⟩ := h
  refine ⟨List.isEmpty_eq_false.mp h1, ?_, h3, h4⟩
  intro c hc
  have := h2 c hc
  simp only [Bool.and_eq_true, decide_eq_true_eq] at this
  exact ⟨this.1.1, this.1.2, this.2⟩

theorem matchAt_dni (v : String) (hne : v.toList ≠ [])
    (hd : v.toList.dropWhile isPySpace = v.toList)
    (hnl : ∀ c ∈ v.toList, c ≠ '\n') :
    matchAt (dniBlock v) = some ((['D', 'N', 'I'], v.toList), []) := by
  show matchAt ('D' :: 'N' :: 'I' :: ' ' :: ':' :: ' ' :: v.toList) = _
  unfold matchAt
  rw [show findKey ('D' :: 'N' :: 'I' :: ' ' :: ':' :: ' ' :: v.toList) = some 3 from rfl]
  show (match (skipWS v.toList : List Char) with
    | [] =>
      match (((skipWS (('D' :: 'N' :: 'I' :: ' ' :: ':' :: ' ' :: v.toList).drop 3)).tail).reverse : List Char) with
      | [] => none
      | c :: _ => some ((('D' :: 'N' :: 'I' :: ' ' :: ':' :: ' ' :: v.toList).take 3, [c]), [])
    | c :: r =>
      some ((('D' :: 'N' :: 'I' :: ' ' :: ':' :: ' ' :: v.toList).take 3,
        c :: r.take (1 + valueLenAux r - 1)), r.drop (1 + valueLenAux r - 1))) = _
  rw [show (skipWS v.toList : List Char) = v.toList from hd]
  match hv : v.toList with
  | [] => exact absurd hv hne
  | c :: r =>
    have hr : valueLenAux r = r.length := by
      refine valueLenAux_no_nl r (fun x hx => hnl x ?_)
      rw [hv]
      exact List.mem_cons_of_mem c hx
    simp only [hr]
    rw [show 1 + r.length - 1 = r.length by omega]
    rw [List.take_length, List.drop_length]
    rfl

theorem findPairs_dni (v : String) (hne : v.toList ≠ [])
    (hd : v.toList.dropWhile isPySpace = v.toList)
    (hnl : ∀ c ∈ v.toList, c ≠ '\n') :
    findPairs (dniBlock v) = [(['D', 'N', 'I'], v.toList)] := by
  unfold findPairs
  have hlen : (dniBlock v).length + 1 = v.toList.length + 7 := by
    simp [dniBlock]
  rw [hlen]
  show findPairsAux (v.toList.length + 7) (dniBlock v) true = _
  rw [show (v.toList.length + 7) = (v.toList.length + 6) + 1 by omega]
  rw [show findPairsAux (v.toList.length + 6 + 1) (dniBlock v) true =
      match matchAt (dniBlock v) with
      | some (kv, rest) =>
        kv :: findPairsAux (v.toList.length + 6) rest (kv.2.getLastD ' ' = '\n')
      | none => findPairsAux (v.toList.length + 6) (dropLine (dniBlock v)) true from rfl]
  rw [matchAt_dni v hne hd hnl]
  simp [findPairsAux_nil]

theorem parse_block_dni (v : String) (hgv : goodVal v = true) :
    parse_block (dniBlock v) = [("DNI", JVal.str v)] := by
  obtain ⟨hne, hchars, hstrip, hht⟩ := goodVal_spec v hgv
  have hparts := pyStrip_parts _ hstrip
  have hnl : ∀ c ∈ v.toList, c ≠ '\n' := fun c hc => (hchars c hc).2.1
  have hmk : String.mk v.toList = v := by
    cases v
    rfl
  have hNL : collapseRuns (fun c => c = '\n') '\n' v.toList = v.toList := by
    apply collapseRunsAux_eq_self
    intro c hc
    simp [hnl c hc]
  have hcp : cleanPair (['D', 'N', 'I'], v.toList) = some ("DNI", v) := by
    unfold cleanPair
    simp only [hstrip, hht, hNL]
    rw [show pyStrip ['D', 'N', 'I'] = ['D', 'N', 'I'] from rfl]
    rw [if_neg (by simp)]
    rw [hmk]
  unfold parse_block
  rw [findPairs_dni v hne hparts.1 hnl]
  have hfm : List.filterMap cleanPair [(['D', 'N', 'I'], v.toList)] = [("DNI", v)] := by
    rw [List.filterMap_cons, hcp]
    rfl
  rw [hfm]
  rfl

theorem lastNonWS_head_rev (w : List Char) (a : Char) (t : List Char)
    (hrev : w.reverse = a :: t) (h : lastNonWS w) : isPySpace a = false := by
  unfold lastNonWS at h
  rw [hrev] at h
  exact dropWhile_self_head h

theorem lastNonWS_suffix (pre suf : List Char) (hne : suf ≠ [])
    (h : lastNonWS (pre ++ suf)) : lastNonWS suf := by
  obtain ⟨a, t, hat⟩ : ∃ a t, suf.reverse = a :: t := by
    cases hsr : suf.reverse with
    | nil => exact absurd (by simpa using congrArg List.reverse hsr) hne
    | cons a t => exact ⟨a, t, rfl⟩
  have hrev : (pre ++ suf).reverse = a :: (t ++ pre.reverse) := by
    rw [List.reverse_append, hat]
    rfl
  have hna := lastNonWS_head_rev _ _ _ hrev h
  unfold lastNonWS
  rw [hat]
  exact dropWhile_cons_self t hna

theorem lastNonWS_exists (w : List Char) (hne : w ≠ []) (h : lastNonWS w) :
    ∃ x ∈ w, isPySpace x = false := by
  obtain ⟨a, t, hat⟩ : ∃ a t, w.reverse = a :: t := by
    cases hsr : w.reverse with
    | nil => exact absurd (by simpa using congrArg List.reverse hsr) hne
    | cons a t => exact ⟨a, t, rfl⟩
  refine ⟨a, ?_, lastNonWS_head_rev _ _ _ hat h⟩
  have : a ∈ w.reverse := hat ▸ List.mem_cons_self a t
  simpa using this

theorem blocksAux_cons_ws (f : Nat) (c : Char) (rest acc : List Char)
    (hc : isPySpace c = true)
    (hcount : ¬ 2 ≤ ((c :: rest).takeWhile isPySpace).count '\n') :
    blocksAux (f + 1) (c :: rest) acc =
      blocksAux f ((c :: rest).dropWhile isPySpace)
        (((c :: rest).takeWhile isPySpace).reverse ++ acc) := by
  simp only [blocksAux, hc, if_true, if_neg hcount]

theorem blocksAux_cons_nonws (f : Nat) (c : Char) (rest acc : List Char)
    (hc : isPySpace c = false) :
    blocksAux (f + 1) (c :: rest) acc = blocksAux f rest (c :: acc) := by
  simp [blocksAux, hc]

theorem blocksAux_sep (f : Nat) (t acc : List Char) :
    blocksAux (f + 1) ('\n' :: '\n' :: 'D' :: t) acc =
      acc.reverse :: blocksAux f ('D' :: t) [] := rfl

theorem blocksAux_walk (n : Nat) :
    ∀ (w : List Char), w.length ≤ n → (∀ c ∈ w, c ≠ '\n') → lastNonWS w →
    ∀ (fuel : Nat) (acc tail : List Char), w.length + tail.length < fuel →
      ∃ fuel2, tail.length < fuel2 ∧ fuel2 ≤ fuel ∧
        blocksAux fuel (w ++ tail) acc = blocksAux fuel2 tail (w.reverse ++ acc) := by
  induction n with
  | zero =>
    intro w hw _ _ fuel acc tail hf
    have : w = [] := List.length_eq_zero.mp (Nat.le_zero.mp hw)
    subst this
    exact ⟨fuel, by simpa using hf, le_refl _, by simp⟩
  | succ n ih =>
    intro w hw hnl hlast fuel acc tail hf
    match w, hw, hnl, hlast, hf with
    | [], _, _, _, hf =>
      exact ⟨fuel, by simpa using hf, le_refl _, by simp⟩
    | c :: w', hw, hnl, hlast, hf =>
      match fuel, hf with
      | f + 1, hf =>
        by_cases hc : isPySpace c
        · -- whitespace head: the run stays inside c :: w'
          have hne : (c :: w') ≠ [] := by simp
          have hex := lastNonWS_exists _ hne hlast
          have htd := takeWhile_append_of_not (c :: w') hex tail
          have hrun0 : ((c :: w') ++ tail).takeWhile isPySpace =
              (c :: w').takeWhile isPySpace := htd.1
          have hcount : ¬ 2 ≤ (((c :: w') ++ tail).takeWhile isPySpace).count '\n' := by
            rw [hrun0]
            have hz : ((c :: w').takeWhile isPySpace).count '\n' = 0 := by
              rw [List.count_eq_zero]
              intro hmem
              exact hnl '\n' ((List.takeWhile_sublist _).mem hmem) rfl
            omega
          have hstep := blocksAux_cons_ws f c (w' ++ tail) acc hc (by
            simpa using hcount)
          rw [show (c :: w') ++ tail = c :: (w' ++ tail) from rfl]
          rw [hstep]
          -- rewrite takeWhile/dropWhile over the append
          have htw : (c :: (w' ++ tail)).takeWhile isPySpace =
              (c :: w').takeWhile isPySpace := by simpa using hrun0
          have hdw : (c :: (w' ++ tail)).dropWhile isPySpace =
              (c :: w').dropWhile isPySpace ++ tail := by simpa using htd.2
          rw [htw, hdw]
          -- the remainder of the block after the run
          have hsplit : (c :: w').takeWhile isPySpace ++ (c :: w').dropWhile isPySpace
              = c :: w' := List.takeWhile_append_dropWhile _ _
          have hne2 : (c :: w').dropWhile isPySpace ≠ [] := by
            intro he
            obtain ⟨x, hx, hxw⟩ := hex
            rw [← hsplit, he, List.append_nil] at hx
            have := List.mem_takeWhile_imp hx
            rw [this] at hxw
            exact absurd hxw (by simp)
          have hlast2 : lastNonWS ((c :: w').dropWhile isPySpace) := by
            refine lastNonWS_suffix ((c :: w').takeWhile isPySpace) _ hne2 ?_
            rw [hsplit]
            exact hlast
          have hnl2 : ∀ x ∈ (c :: w').dropWhile isPySpace, x ≠ '\n' :=
            fun x hx => hnl x ((List.dropWhile_sublist _).mem hx)
          have hlen2 : ((c :: w').dropWhile isPySpace).length ≤ n := by
            have h1 : ((c :: w').dropWhile isPySpace).length ≤ w'.length := by
              rw [List.dropWhile_cons, if_pos hc]
              exact dropWhile_length_le _ _
            have h2 : w'.length + 1 ≤ n + 1 := by simpa using hw
            omega
          have hf2 : ((c :: w').dropWhile isPySpace).length + tail.length < f := by
            have h1 : ((c :: w').dropWhile isPySpace).length ≤ w'.length := by
              rw [List.dropWhile_cons, if_pos hc]
              exact dropWhile_length_le _ _
            simp only [List.length_cons] at hf
            omega
          obtain ⟨fuel2, hflt, hfle, heq⟩ :=
            ih ((c :: w').dropWhile isPySpace) hlen2 hnl2 hlast2 f
              (((c :: w').takeWhile isPySpace).reverse ++ acc) tail hf2
          refine ⟨fuel2, hflt, by omega, ?_⟩
          rw [heq]
          congr 1
          rw [← List.append_assoc, ← List.reverse_append, hsplit]
        · -- non-whitespace head: consume one character
          have hstep := blocksAux_cons_nonws f c (w' ++ tail) acc (by simpa using hc)
          rw [show (c :: w') ++ tail = c :: (w' ++ tail) from rfl, hstep]
          have hlast2 : lastNonWS w' := by
            by_cases hwe : w' = []
            · subst hwe
              unfold lastNonWS
              rfl
            · exact lastNonWS_suffix [c] w' hwe (by simpa using hlast)
          have hnl2 : ∀ x ∈ w', x ≠ '\n' :=
            fun x hx => hnl x (List.mem_cons_of_mem c hx)
          have hlen2 : w'.length ≤ n := by
            simp only [List.length_cons] at hw
            omega
          have hf2 : w'.length + tail.length < f := by
            simp only [List.length_cons] at hf
            omega
          obtain ⟨fuel2, hflt, hfle, heq⟩ := ih w' hlen2 hnl2 hlast2 f (c :: acc) tail hf2
          refine ⟨fuel2, hflt, by omega, ?_⟩
          rw [heq]
          congr 1
          simp

theorem dniBlock_noNL (v : String) (hgv : goodVal v = true) :
    ∀ c ∈ dniBlock v, c ≠ '\n' := by
  obtain ⟨_, hchars, _, _⟩ := goodVal_spec v hgv
  intro c hc
  rcases List.mem_append.mp hc with h | h
  · have h2 : c ∈ ['D', 'N', 'I', ' ', ':', ' '] := h
    fin_cases h2 <;> decide
  · exact (hchars c h).2.1

theorem dniBlock_noCR (v : String) (hgv : goodVal v = true) :
    ∀ c ∈ dniBlock v, c ≠ '\r' := by
  obtain ⟨_, hchars, _, _⟩ := goodVal_spec v hgv
  intro c hc
  rcases List.mem_append.mp hc with h | h
  · have h2 : c ∈ ['D', 'N', 'I', ' ', ':', ' '] := h
    fin_cases h2 <;> decide
  · exact (hchars c h).2.2

theorem dniBlock_lastNonWS (v : String) (hgv : goodVal v = true) :
    lastNonWS (dniBlock v) := by
  obtain ⟨hne, _, hstrip, _⟩ := goodVal_spec v hgv
  have hrev := (pyStrip_parts _ hstrip).2
  obtain ⟨a, t, hat⟩ : ∃ a t, v.toList.reverse = a :: t := by
    cases hsr : v.toList.reverse with
    | nil => exact absurd (by simpa using congrArg List.reverse hsr) hne
    | cons a t => exact ⟨a, t, rfl⟩
  have hna : isPySpace a = false := by
    rw [hat] at hrev
    exact dropWhile_self_head hrev
  unfold lastNonWS
  rw [show (dniBlock v).reverse = v.toList.reverse ++ "DNI : ".toList.reverse by
    simp [dniBlock]]
  rw [hat]
  exact dropWhile_cons_self _ hna

theorem joinBlocks_head (v : String) (rest : List String) :
    ∃ t, joinBlocks (v :: rest) = 'D' :: t := by
  cases rest with
  | nil => exact ⟨_, rfl⟩
  | cons u r => exact ⟨_, rfl⟩

theorem blocksAux_join :
    ∀ (rest : List String) (v : String), goodVal v = true →
    (∀ u ∈ rest, goodVal u = true) →
    ∀ (fuel : Nat) (acc : List Char), (joinBlocks (v :: rest)).length < fuel →
      blocksAux fuel (joinBlocks (v :: rest)) acc =
        (acc.reverse ++ dniBlock v) :: rest.map dniBlock := by
  intro rest
  induction rest with
  | nil =>
    intro v hgv _ fuel acc hlen
    have hwalk := blocksAux_walk (dniBlock v).length (dniBlock v) (le_refl _)
      (dniBlock_noNL v hgv) (dniBlock_lastNonWS v hgv) fuel acc []
      (by simpa [joinBlocks] using hlen)
    obtain ⟨fuel2, _, _, heq⟩ := hwalk
    rw [show joinBlocks [v] = dniBlock v ++ [] by simp [joinBlocks]]
    rw [heq]
    rw [show blocksAux fuel2 [] ((dniBlock v).reverse ++ acc) =
        [((dniBlock v).reverse ++ acc).reverse] from by cases fuel2 <;> rfl]
    simp [List.map]
  | cons u r ih =>
    intro v hgv hrest fuel acc hlen
    have hju : joinBlocks (v :: u :: r) = dniBlock v ++ '\n' :: '\n' :: joinBlocks (u :: r) := rfl
    rw [hju] at hlen ⊢
    have hwalk := blocksAux_walk (dniBlock v).length (dniBlock v) (le_refl _)
      (dniBlock_noNL v hgv) (dniBlock_lastNonWS v hgv) fuel acc
      ('\n' :: '\n' :: joinBlocks (u :: r)) (by simpa using hlen)
    obtain ⟨fuel2, hflt, _, heq⟩ := hwalk
    rw [heq]
    obtain ⟨t, ht⟩ := joinBlocks_head u r
    rw [ht]
    match fuel2, hflt with
    | f2 + 1, hflt =>
      rw [blocksAux_sep]
      rw [← ht]
      have hgu : goodVal u = true := hrest u (List.mem_cons_self u r)
      have hr : ∀ x ∈ r, goodVal x = true := fun x hx => hrest x (List.mem_cons_of_mem u hx)
      rw [ih u hgu hr f2 [] (by
        simp only [List.length_cons] at hflt
        omega)]
      simp

theorem pyStrip_dni (u : String) (hgu : goodVal u = true) :
    pyStrip (dniBlock u) = dniBlock u := by
  refine pyStrip_of_parts _ ?_ (dniBlock_lastNonWS u hgu)
  rw [show dniBlock u = 'D' :: ("NI : ".toList ++ u.toList) from rfl]
  exact dropWhile_cons_self _ (by decide)

theorem lastNonWS_append_right (pre suf : List Char) (hne : suf ≠ [])
    (h : lastNonWS suf) : lastNonWS (pre ++ suf) := by
  obtain ⟨a, t, hat⟩ : ∃ a t, suf.reverse = a :: t := by
    cases hsr : suf.reverse with
    | nil => exact absurd (by simpa using congrArg List.reverse hsr) hne
    | cons a t => exact ⟨a, t, rfl⟩
  have hna := lastNonWS_head_rev _ _ _ hat h
  unfold lastNonWS
  rw [List.reverse_append, hat]
  exact dropWhile_cons_self _ hna

theorem joinBlocks_lastNonWS :
    ∀ (vs : List String), vs ≠ [] → (∀ u ∈ vs, goodVal u = true) →
      lastNonWS (joinBlocks vs)
  | [], h, _ => absurd rfl h
  | [v], _, hv => dniBlock_lastNonWS v (hv v (List.mem_cons_self v []))
  | v :: u :: r, _, hv => by
    have hrec := joinBlocks_lastNonWS (u :: r) (by simp)
      (fun x hx => hv x (List.mem_cons_of_mem v hx))
    obtain ⟨t, ht⟩ := joinBlocks_head u r
    show lastNonWS (dniBlock v ++ '\n' :: '\n' :: joinBlocks (u :: r))
    rw [show dniBlock v ++ '\n' :: '\n' :: joinBlocks (u :: r) =
        (dniBlock v ++ ['\n', '\n']) ++ joinBlocks (u :: r) by simp]
    exact lastNonWS_append_right _ _ (by rw [ht]; simp) hrec

theorem joinBlocks_noCR :
    ∀ (vs : List String), (∀ u ∈ vs, goodVal u = true) →
      ∀ c ∈ joinBlocks vs, c ≠ '\r'
  | [], _, c, hc => by simp [joinBlocks] at hc
  | [v], hv, c, hc => dniBlock_noCR v (hv v (List.mem_cons_self v [])) c hc
  | v :: u :: r, hv, c, hc => by
    have hc2 : c ∈ dniBlock v ++ '\n' :: '\n' :: joinBlocks (u :: r) := hc
    rcases List.mem_append.mp hc2 with h | h
    · exact dniBlock_noCR v (hv v (List.mem_cons_self v _)) c h
    · rcases List.mem_cons.mp h with rfl | h
      · decide
      · rcases List.mem_cons.mp h with rfl | h
        · decide
        · exact joinBlocks_noCR (u :: r)
            (fun x hx => hv x (List.mem_cons_of_mem v hx)) c h

theorem pyStrip_join (vs : List String) (hne : vs ≠ [])
    (hv : ∀ u ∈ vs, goodVal u = true) :
    pyStrip (joinBlocks vs) = joinBlocks vs := by
  match vs, hne with
  | v :: rest, _ =>
    refine pyStrip_of_parts _ ?_ (joinBlocks_lastNonWS _ (by simp) hv)
    obtain ⟨t, ht⟩ := joinBlocks_head v rest
    rw [ht]
    exact dropWhile_cons_self _ (by decide)

theorem splitBlocks_join (v : String) (rest : List String)
    (hgv : goodVal v = true) (hrest : ∀ u ∈ rest, goodVal u = true) :
    splitBlocks (joinBlocks (v :: rest)) = (v :: rest).map dniBlock := by
  unfold splitBlocks
  rw [blocksAux_join rest v hgv hrest _ [] (Nat.lt_succ_self _)]
  rw [show (([] : List Char).reverse ++ dniBlock v) :: rest.map dniBlock =
      (v :: rest).map dniBlock by simp]
  have hmap : ((v :: rest).map dniBlock).map pyStrip = (v :: rest).map dniBlock := by
    rw [List.map_map]
    refine List.map_eq_map_iff.mpr ?_
    intro u hu
    show pyStrip (dniBlock u) = dniBlock u
    exact pyStrip_dni u (by
      rcases List.mem_cons.mp hu with rfl | hu2
      · exact hgv
      · exact hrest u hu2)
  rw [hmap]
  refine List.filter_eq_self.mpr ?_
  intro b hb
  rcases List.mem_map.mp hb with ⟨u, _, rfl⟩
  simp [dniBlock]

theorem strMk_toList (cs : List Char) : (String.mk cs).toList = cs := rfl

/-- Claim C1 amended: record boundaries are blank lines, not pivot
labels.  For text made of N `DNI : value` blocks separated by blank
lines (values in the normalized shape `goodVal` describes), the parser
returns exactly N records when N > 1 and exactly one record when N = 1,
each record containing the label exactly once with its own value. -/
theorem claim_C1_theorem (vs : List String) (hne : vs ≠ [])
    (hv : ∀ v ∈ vs, goodVal v = true) :
    universalParser (String.mk (joinBlocks vs)) =
      match vs with
      | [v] => ParseResult.single [("DNI", JVal.str v)]
      | _ => ParseResult.multiple (vs.map (fun v => [("DNI", JVal.str v)])) := by
  match vs, hne with
  | v :: rest, _ =>
    have hv' : ∀ u ∈ v :: rest, goodVal u = true := hv
    have hstrip := pyStrip_join (v :: rest) (by simp) hv'
    have hnonempty : joinBlocks (v :: rest) ≠ [] := by
      obtain ⟨t, ht⟩ := joinBlocks_head v rest
      rw [ht]
      simp
    unfold universalParser
    simp only [strMk_toList]
    rw [if_neg (by
      intro h
      rw [hstrip] at h
      exact hnonempty h)]
    rw [normalizeCR_eq_self _ (joinBlocks_noCR (v :: rest) hv')]
    rw [hstrip]
    rw [splitBlocks_join v rest (hv' v (List.mem_cons_self v rest))
      (fun u hu => hv' u (List.mem_cons_of_mem v hu))]
    rw [List.map_map]
    rw [List.map_eq_map_iff.mpr (fun u hu =>
      show (parse_block ∘ dniBlock) u = (fun w => [("DNI", JVal.str w)]) u from
        parse_block_dni u (hv' u hu))]
    rw [List.filter_eq_self.mpr (by
      intro b hb
      rcases List.mem_map.mp hb with ⟨u, _, rfl⟩
      simp)]
    cases rest with
    | nil => rfl
    | cons u r => rfl

theorem claim_C1_witness :
    (["111", "222"] : List String) ≠ [] ∧
    (∀ v ∈ (["111", "222"] : List String), goodVal v = true) ∧
    universalParser (String.mk (joinBlocks ["111", "222"])) =
      ParseResult.multiple [[("DNI", JVal.str "111")], [("DNI", JVal.str "222")]] := by
  refine ⟨by simp, by decide, ?_⟩
  have h := claim_C1_theorem ["111", "222"] (by simp) (by decide)
  simpa using h
